import Mathlib

/-!
A verification development for the core of the hmt-frontend-solidity compiler
front-end: lexer, parser driver, file resolver, diagnostics collector and the
semantic resolver passes (type declarations, contract bases, using/operator
bindings, imports, mutability checking).

Each Rust module is shallowly embedded as executable Lean definitions; machine
integers are modelled as `Nat` (no arithmetic in the embedded fragment
overflows), fallible operations return `Option`/`Except`, and mutable state is
threaded explicitly.
-/

namespace Hmt

/-- Source location. Modelled from the spec: `Loc` is either
`File(file_no, start, end)` with half-open byte offsets, or `Implicit`
(the defining module `parser/ast.rs` is generated into the crate and is not
part of the source snapshot; the spec documents the two variants). -/
inductive Loc where
| file (no start stop : Nat)
| implicit
deriving DecidableEq, Repr

instance : Inhabited Loc := ⟨Loc.implicit⟩

/-- The level of a diagnostic (diagnostics.rs `Level`). -/
inductive Level where
| debug
| info
| warning
| error
deriving DecidableEq, Repr

/-- The type of a diagnostic (diagnostics.rs `ErrorType`). -/
inductive ErrorType where
| none
| parserError
| syntaxError
| declarationError
| castError
| typeError
| warning
deriving DecidableEq, Repr

/-- A diagnostic note (diagnostics.rs `Note`). -/
structure Note where
  loc : Loc
  message : String
deriving DecidableEq, Repr

/-- A Solidity diagnostic (diagnostics.rs `Diagnostic`). -/
structure Diagnostic where
  loc : Loc
  level : Level
  ty : ErrorType
  message : String
  notes : List Note
deriving DecidableEq, Repr

/-- Numeric rank of a `Level`, mirroring the declaration order used by the
derived Rust `Ord`. -/
def Level.rank : Level → Nat
| .debug => 0
| .info => 1
| .warning => 2
| .error => 3

/-- Numeric rank of an `ErrorType`, mirroring the declaration order used by
the derived Rust `Ord`. -/
def ErrorType.rank : ErrorType → Nat
| .none => 0
| .parserError => 1
| .syntaxError => 2
| .declarationError => 3
| .castError => 4
| .typeError => 5
| .warning => 6

/-- Comparison on locations, mirroring the derived Rust `Ord` on `Loc`
(variant order first, then the numeric fields lexicographically). -/
def Loc.cmp : Loc → Loc → Ordering
| .file n1 s1 e1, .file n2 s2 e2 =>
    (compare n1 n2).then ((compare s1 s2).then (compare e1 e2))
| .file _ _ _, .implicit => .lt
| .implicit, .file _ _ _ => .gt
| .implicit, .implicit => .eq

/-- Comparison on notes (derived Rust `Ord`: `loc`, then `message`). -/
def Note.cmp (a b : Note) : Ordering :=
  (a.loc.cmp b.loc).then (compare a.message b.message)

/-- Lexicographic comparison of note lists (Rust `Ord` for `Vec`). -/
def notesCmp : List Note → List Note → Ordering
| [], [] => .eq
| [], _ :: _ => .lt
| _ :: _, [] => .gt
| a :: as_, b :: bs => (a.cmp b).then (notesCmp as_ bs)

/-- Comparison on diagnostics, mirroring the derived Rust `Ord` on
`Diagnostic` (fields in declaration order). -/
def Diagnostic.cmp (a b : Diagnostic) : Ordering :=
  (a.loc.cmp b.loc).then ((compare a.level.rank b.level.rank).then
    ((compare a.ty.rank b.ty.rank).then
      ((compare a.message b.message).then (notesCmp a.notes b.notes))))

/-- The boolean order used to sort diagnostics (`Vec::sort` uses `Ord`). -/
def Diagnostic.le (a b : Diagnostic) : Bool :=
  a.cmp b ≠ Ordering.gt

/-- Insert into a sorted list of diagnostics (stable insertion). -/
def insOrdered (a : Diagnostic) : List Diagnostic → List Diagnostic
| [] => [a]
| b :: rest => if Diagnostic.le a b then a :: b :: rest else b :: insOrdered a rest

/-- Stable sort of a diagnostic list by `Diagnostic.le`, modelling
`Vec::sort`. -/
def sortDiags : List Diagnostic → List Diagnostic
| [] => []
| a :: rest => insOrdered a (sortDiags rest)

/-- Remove consecutive duplicates, modelling `Vec::dedup`. -/
def dedupAdj : List Diagnostic → List Diagnostic
| [] => []
| [a] => [a]
| a :: b :: rest =>
    if a = b then dedupAdj (b :: rest) else a :: dedupAdj (b :: rest)

/-- A collection of diagnostics with error tracking
(diagnostics.rs `Diagnostics`): the list of diagnostics together with the
cached `has_error` bit. -/
structure Diagnostics where
  contents : List Diagnostic
  has_error : Bool
deriving DecidableEq, Repr

namespace Diagnostics

/-- `Diagnostics::new` / `Default`. -/
def new : Diagnostics := { contents := [], has_error := false }

/-- `Diagnostics::is_empty`. -/
def is_empty (d : Diagnostics) : Bool := d.contents.isEmpty

/-- `Diagnostics::len`. -/
def len (d : Diagnostics) : Nat := d.contents.length

/-- `Diagnostics::push`: adds a diagnostic, setting `has_error` when it is an
error. -/
def push (d : Diagnostics) (diagnostic : Diagnostic) : Diagnostics :=
  { contents := d.contents ++ [diagnostic],
    has_error := if diagnostic.level = Level.error then true else d.has_error }

/-- `Diagnostics::extend`: extends with another collection, or-ing the
`has_error` bits. -/
def extend (d other : Diagnostics) : Diagnostics :=
  { contents := d.contents ++ other.contents,
    has_error := d.has_error || other.has_error }

/-- `Diagnostics::append`: appends a moved vector; when `has_error` is not yet
set it is recomputed by scanning the incoming vector. -/
def append (d : Diagnostics) (v : List Diagnostic) : Diagnostics :=
  { contents := d.contents ++ v,
    has_error :=
      if d.has_error then true else v.any (fun m => m.level = Level.error) }

/-- `Diagnostics::any_errors`: returns the cached `has_error` bit. -/
def any_errors (d : Diagnostics) : Bool := d.has_error

/-- `Diagnostics::errors`: all error-level diagnostics. -/
def errors (d : Diagnostics) : List Diagnostic :=
  d.contents.filter (fun x => x.level = Level.error)

/-- `Diagnostics::warnings`: all warning-level diagnostics. -/
def warnings (d : Diagnostics) : List Diagnostic :=
  d.contents.filter (fun x => x.level = Level.warning)

/-- `Diagnostics::contains_message`: exact message match. -/
def contains_message (d : Diagnostics) (message : String) : Bool :=
  d.contents.any (fun x => x.message = message)

/-- `Diagnostics::normalize`: sort then remove consecutive duplicates. -/
def normalize (d : Diagnostics) : Diagnostics :=
  { d with contents := dedupAdj (sortDiags d.contents) }

end Diagnostics

/-- Diagnostic constructor helpers (diagnostics.rs `Diagnostic::debug`,
`info`, `warning`, `error` and the builder). -/
def Diagnostic.debug (loc : Loc) (msg : String) : Diagnostic :=
  { loc := loc, level := Level.debug, ty := ErrorType.none, message := msg,
    notes := [] }

/-- `Diagnostic::info`. -/
def Diagnostic.info (loc : Loc) (msg : String) : Diagnostic :=
  { loc := loc, level := Level.info, ty := ErrorType.none, message := msg,
    notes := [] }

/-- `Diagnostic::warning` (level warning, type `Warning`). -/
def Diagnostic.warning (loc : Loc) (msg : String) : Diagnostic :=
  { loc := loc, level := Level.warning, ty := ErrorType.warning,
    message := msg, notes := [] }

/-- `Diagnostic::error` (level error, type `SyntaxError`). -/
def Diagnostic.error (loc : Loc) (msg : String) : Diagnostic :=
  { loc := loc, level := Level.error, ty := ErrorType.syntaxError,
    message := msg, notes := [] }

/-- A diagnostic built with `Diagnostic::builder(loc, level).ty(t)
.message(m).notes(ns).build()`. -/
def Diagnostic.build (loc : Loc) (level : Level) (ty : ErrorType)
    (msg : String) (notes : List Note) : Diagnostic :=
  { loc := loc, level := level, ty := ty, message := msg, notes := notes }

/-- The collections reachable from `Diagnostics::new` by the public mutating
operations `push`, `extend`, `append` and `normalize`. -/
inductive Built : Diagnostics → Prop where
| new : Built Diagnostics.new
| push (d : Diagnostics) (x : Diagnostic) : Built d → Built (d.push x)
| extend (d d' : Diagnostics) : Built d → Built d' → Built (d.extend d')
| append (d : Diagnostics) (v : List Diagnostic) : Built d → Built (d.append v)
| normalize (d : Diagnostics) : Built d → Built d.normalize

/-! The token kinds of token.rs `Token`. Payloads (the matched slice or the
parsed value) are dropped: they are recoverable from the byte span the lexer
attaches to every token. Constructors whose Rust name is a Lean keyword get a
`Tok` suffix. -/

/-- Token kind (token.rs `Token`). -/
inductive TokenKind where
| identifier
| annot
| stringLiteral
| hexLiteral
| addressLiteral
| number
| rationalNumber
| hexNumber
| semicolon
| openCurlyBrace
| closeCurlyBrace
| openParenthesis
| closeParenthesis
| assign
| equal
| arrow
| yulArrow
| bitwiseOrAssign
| bitwiseXorAssign
| bitwiseAndAssign
| shiftLeftAssign
| shiftRightAssign
| addAssign
| subtractAssign
| mulAssign
| divideAssign
| moduloAssign
| question
| colon
| colonAssign
| or
| and
| notEqual
| less
| lessEqual
| more
| moreEqual
| bitwiseOr
| bitwiseAnd
| bitwiseXor
| shiftLeft
| shiftRight
| add
| subtract
| mul
| divide
| modulo
| power
| not
| bitwiseNot
| increment
| decrement
| openBracket
| closeBracket
| member
| comma
| uint
| int
| bytes
| byte
| struct
| memory
| calldata
| storage
| importTok
| contract
| pragma
| bool
| address
| string
| dynamicBytes
| delete
| newTok
| interface
| library
| event
| enum
| type
| public
| privateTok
| external
| internal
| constant
| trueTok
| falseTok
| pure
| view
| payable
| constructorTok
| function
| returns
| returnTok
| revert
| ifTok
| forTok
| whileTok
| elseTok
| doTok
| continueTok
| breakTok
| throw
| emit
| anonymous
| indexed
| mapping
| tryTok
| catchTok
| receive
| fallback
| asTok
| isTok
| abstract
| virtual
| override
| usingTok
| modifier
| immutable
| unchecked
| assembly
| letTok
| leave
| switch
| caseTok
| default
| persistent
| temporary
| instanceTok
| error
deriving DecidableEq, Repr

/-- Debug-style name of a token kind, standing in for the Rust `Display`
implementation (which prints the `Debug` form; payloads are not modelled, so
only the variant name is printed). -/
def TokenKind.show (t : TokenKind) : String :=
  (reprStr t).dropWhile (fun c => c ≠ '.') |>.drop 1

/-- A lexical error (error.rs `LexicalError`). -/
inductive LexicalError where
| endOfFileInComment (l : Loc)
| endOfFileInString (l : Loc)
| endofFileInHex (l : Loc)
| missingNumber (l : Loc)
| invalidCharacterInHexLiteral (l : Loc) (c : Char)
| unrecognisedToken (l : Loc) (s : String)
| missingExponent (l : Loc)
| expectedFrom (l : Loc) (s : String)
| invalidToken
deriving DecidableEq, Repr

/-- The `thiserror`-derived `Display` message of a `LexicalError`. -/
def LexicalError.toMessage : LexicalError → String
| .endOfFileInComment _ => "end of file found in comment"
| .endOfFileInString _ => "end of file found in string literal"
| .endofFileInHex _ => "end of file found in hex literal string"
| .missingNumber _ => "missing number"
| .invalidCharacterInHexLiteral _ c =>
    "invalid character '" ++ String.singleton c ++ "' in hex literal string"
| .unrecognisedToken _ s => "unrecognised token '" ++ s ++ "'"
| .missingExponent _ => "missing exponent"
| .expectedFrom _ s => "'" ++ s ++ "' found where 'from' expected"
| .invalidToken => "invalid token"

/-- The `CodeLocation` of a `LexicalError` (macro-generated in
helpers/loc.rs): the `Loc` payload of the variant; `InvalidToken` carries no
location and is mapped to `Implicit`. -/
def LexicalError.loc : LexicalError → Loc
| .endOfFileInComment l => l
| .endOfFileInString l => l
| .endofFileInHex l => l
| .missingNumber l => l
| .invalidCharacterInHexLiteral l _ => l
| .unrecognisedToken l _ => l
| .missingExponent l => l
| .expectedFrom l _ => l
| .invalidToken => Loc.implicit

/-- One step of lexer.rs `Lexer::next` applied to the whole stream: the
underlying logos `SpannedIter` (derive-generated) is abstracted as its output
stream of `(Result<Token, LexicalError>, span)` items; `next` converts every
error item into an `Ok` item carrying `Token::Error` over the same span. -/
def Lexer.run (items : List (Except LexicalError TokenKind × Nat × Nat)) :
    List (Except LexicalError (Nat × TokenKind × Nat)) :=
  items.map (fun item =>
    match item with
    | (Except.ok t, s, e) => Except.ok (s, t, e)
    | (Except.error _, s, e) => Except.ok (s, TokenKind.error, e))

/-! Character-level matching of the token patterns of token.rs, used to model
the logos-generated maximal-munch tokenizer. Each `…Len` function returns the
length of the longest prefix matched by the pattern (0 when the pattern does
not match, which is unambiguous since no pattern matches the empty string). -/

/-- Character class `[_a-zA-Z]` (identifier start). -/
def isIdStart (c : Char) : Bool := c = '_' || c.isAlpha

/-- Character class `[_0-9a-zA-Z]` (identifier continuation). -/
def isIdCont (c : Char) : Bool := c = '_' || c.isAlpha || c.isDigit

/-- Character class `[0-9a-fA-F]`. -/
def isHexDigitCh (c : Char) : Bool :=
  c.isDigit || ('a' ≤ c && c ≤ 'f') || ('A' ≤ c && c ≤ 'F')

/-- Length of the longest prefix all of whose characters satisfy `p`. -/
def countWhile (p : Char → Bool) : List Char → Nat
| [] => 0
| c :: rest => if p c then 1 + countWhile p rest else 0

/-- Longest match of `[_a-zA-Z][_0-9a-zA-Z]*` (the `Identifier` pattern). -/
def identifierLen : List Char → Nat
| [] => 0
| c :: rest => if isIdStart c then 1 + countWhile isIdCont rest else 0

/-- Longest match of `@[_a-zA-Z][_0-9a-zA-Z]*` (the `Annotation` pattern). -/
def annotLen : List Char → Nat
| '@' :: rest => (let i := identifierLen rest; if i = 0 then 0 else 1 + i)
| _ => 0

/-- Longest match of `"[_a-zA-Z][_0-9a-zA-Z]*"` (a quoted identifier). -/
def quotedIdentLen : List Char → Nat
| '"' :: rest =>
    (let i := identifierLen rest
     if i = 0 then 0
     else match rest.drop i with
          | '"' :: _ => i + 2
          | _ => 0)
| _ => 0

/-- Longest match of `(unicode)?"[_a-zA-Z][_0-9a-zA-Z]*"` (the
`StringLiteral` pattern). -/
def stringLitLen (cs : List Char) : Nat :=
  if cs.take 7 = "unicode".toList then
    (let q := quotedIdentLen (cs.drop 7); if q = 0 then 0 else 7 + q)
  else quotedIdentLen cs

/-- Longest match of `([0-9a-fA-F]{2}(_?[0-9a-fA-F]{2})*)*`, the digit-pair
body shared by the `HexLiteral` and `HexNumber` patterns. The `started` flag
records whether a pair has already been consumed, so that an underscore
separator is permitted. -/
def hexPairs : Bool → List Char → Nat
| started, '_' :: a :: b :: rest =>
    if started && isHexDigitCh a && isHexDigitCh b then 3 + hexPairs true rest
    else 0
| _, a :: b :: rest =>
    if isHexDigitCh a && isHexDigitCh b then 2 + hexPairs true rest else 0
| _, _ => 0

/-- Longest match of the `HexLiteral` pattern
`hex["']([0-9a-fA-F]{2}(_?[0-9a-fA-F]{2})*)*["']`. -/
def hexLitLen : List Char → Nat
| 'h' :: 'e' :: 'x' :: q :: rest =>
    if q = '"' || q = '\'' then
      (let p := hexPairs false rest
       match rest.drop p with
       | q2 :: _ => if q2 = '"' || q2 = '\'' then 4 + p + 1 else 0
       | [] => 0)
    else 0
| _ => 0

/-- Longest match of the `AddressLiteral` pattern `0x[0-9a-fA-F]{40}`. -/
def addressLen : List Char → Nat
| '0' :: 'x' :: rest =>
    if (rest.take 40).length = 40 && (rest.take 40).all isHexDigitCh then 42
    else 0
| _ => 0

/-- Longest match of the `HexNumber` pattern
`0x([0-9a-fA-F]{2}(_?[0-9a-fA-F]{2})*)*`. Note that the digits are matched in
pairs and that `0x` alone (zero pairs) already matches. -/
def hexNumberLen : List Char → Nat
| '0' :: 'x' :: rest => 2 + hexPairs false rest
| _ => 0

/-- Longest run of decimal digits. -/
def digitsLen (cs : List Char) : Nat := countWhile Char.isDigit cs

/-- Longest match of the integer part `(0|[1-9]\d*)`. -/
def intPartLen : List Char → Nat
| '0' :: _ => 1
| c :: rest => if c.isDigit then 1 + digitsLen rest else 0
| [] => 0

/-- Longest match of the optional fraction `(\.\d+)?` (0 when absent). -/
def fracLen : List Char → Nat
| '.' :: c :: rest => if c.isDigit then 2 + digitsLen rest else 0
| _ => 0

/-- Longest match of the optional exponent `([eE][+-]?\d+)?` (0 when
absent). -/
def expLen : List Char → Nat
| e :: rest =>
    if e = 'e' || e = 'E' then
      match rest with
      | s :: rest2 =>
          if s = '+' || s = '-' then
            (let d := digitsLen rest2; if d = 0 then 0 else 2 + d)
          else (let d := digitsLen rest; if d = 0 then 0 else 1 + d)
      | [] => 0
    else 0
| [] => 0

/-- Longest match of the `Number` pattern
`-?(0|[1-9]\d*)(\.\d+)?([eE][+-]?\d+)?`. -/
def numberLen (cs : List Char) : Nat :=
  let sb : Nat × List Char := match cs with
    | '-' :: rest => (1, rest)
    | _ => (0, cs)
  let i := intPartLen sb.2
  if i = 0 then 0
  else
    let f := fracLen (sb.2.drop i)
    let e := expLen (sb.2.drop (i + f))
    sb.1 + i + f + e

/-- The fixed `#token` strings of token.rs, in declaration order (split
into chunks to keep elaboration cheap). -/
def fixedTokens1 : List (String × TokenKind) :=
  [(";", TokenKind.semicolon),
  ("\x7b", TokenKind.openCurlyBrace),
  ("\x7d", TokenKind.closeCurlyBrace),
  ("(", TokenKind.openParenthesis),
  (")", TokenKind.closeParenthesis),
  ("=", TokenKind.assign),
  ("==", TokenKind.equal),
  ("=>", TokenKind.arrow),
  ("->", TokenKind.yulArrow),
  ("|=", TokenKind.bitwiseOrAssign),
  ("^=", TokenKind.bitwiseXorAssign),
  ("&=", TokenKind.bitwiseAndAssign),
  ("<<=", TokenKind.shiftLeftAssign),
  (">>=", TokenKind.shiftRightAssign),
  ("+=", TokenKind.addAssign),
  ("-=", TokenKind.subtractAssign),
  ("*=", TokenKind.mulAssign),
  ("/=", TokenKind.divideAssign),
  ("%=", TokenKind.moduloAssign),
  ("?", TokenKind.question),
  (":", TokenKind.colon),
  (":=", TokenKind.colonAssign),
  ("||", TokenKind.or),
  ("&&", TokenKind.and),
  ("!=", TokenKind.notEqual),
  ("<", TokenKind.less),
  ("<=", TokenKind.lessEqual),
  (">", TokenKind.more),
  (">=", TokenKind.moreEqual),
  ("|", TokenKind.bitwiseOr)]

def fixedTokens2 : List (String × TokenKind) :=
  [("&", TokenKind.bitwiseAnd),
  ("^", TokenKind.bitwiseXor),
  ("<<", TokenKind.shiftLeft),
  (">>", TokenKind.shiftRight),
  ("+", TokenKind.add),
  ("-", TokenKind.subtract),
  ("*", TokenKind.mul),
  ("/", TokenKind.divide),
  ("%", TokenKind.modulo),
  ("**", TokenKind.power),
  ("!", TokenKind.not),
  ("~", TokenKind.bitwiseNot),
  ("++", TokenKind.increment),
  ("--", TokenKind.decrement),
  ("[", TokenKind.openBracket),
  ("]", TokenKind.closeBracket),
  (".", TokenKind.member),
  (",", TokenKind.comma),
  ("byte", TokenKind.byte),
  ("struct", TokenKind.struct),
  ("memory", TokenKind.memory),
  ("calldata", TokenKind.calldata),
  ("storage", TokenKind.storage),
  ("import", TokenKind.importTok),
  ("contract", TokenKind.contract),
  ("pragma", TokenKind.pragma),
  ("bool", TokenKind.bool),
  ("address", TokenKind.address),
  ("string", TokenKind.string),
  ("bytes", TokenKind.dynamicBytes)]

def fixedTokens3 : List (String × TokenKind) :=
  [("delete", TokenKind.delete),
  ("new", TokenKind.newTok),
  ("interface", TokenKind.interface),
  ("library", TokenKind.library),
  ("event", TokenKind.event),
  ("enum", TokenKind.enum),
  ("type", TokenKind.type),
  ("public", TokenKind.public),
  ("private", TokenKind.privateTok),
  ("external", TokenKind.external),
  ("internal", TokenKind.internal),
  ("constant", TokenKind.constant),
  ("true", TokenKind.trueTok),
  ("false", TokenKind.falseTok),
  ("pure", TokenKind.pure),
  ("view", TokenKind.view),
  ("payable", TokenKind.payable),
  ("constructor", TokenKind.constructorTok),
  ("function", TokenKind.function),
  ("returns", TokenKind.returns),
  ("return", TokenKind.returnTok),
  ("revert", TokenKind.revert),
  ("if", TokenKind.ifTok),
  ("for", TokenKind.forTok),
  ("while", TokenKind.whileTok),
  ("else", TokenKind.elseTok),
  ("do", TokenKind.doTok),
  ("continue", TokenKind.continueTok),
  ("break", TokenKind.breakTok),
  ("throw", TokenKind.throw)]

def fixedTokens4 : List (String × TokenKind) :=
  [("emit", TokenKind.emit),
  ("anonymous", TokenKind.anonymous),
  ("indexed", TokenKind.indexed),
  ("mapping", TokenKind.mapping),
  ("try", TokenKind.tryTok),
  ("catch", TokenKind.catchTok),
  ("receive", TokenKind.receive),
  ("fallback", TokenKind.fallback),
  ("as", TokenKind.asTok),
  ("is", TokenKind.isTok),
  ("abstract", TokenKind.abstract),
  ("virtual", TokenKind.virtual),
  ("override", TokenKind.override),
  ("using", TokenKind.usingTok),
  ("modifier", TokenKind.modifier),
  ("immutable", TokenKind.immutable),
  ("unchecked", TokenKind.unchecked),
  ("assembly", TokenKind.assembly),
  ("let", TokenKind.letTok),
  ("leave", TokenKind.leave),
  ("switch", TokenKind.switch),
  ("case", TokenKind.caseTok),
  ("default", TokenKind.default),
  ("persistent", TokenKind.persistent),
  ("temporary", TokenKind.temporary),
  ("instance", TokenKind.instanceTok)]

def fixedTokens : List (String × TokenKind) := fixedTokens1 ++ fixedTokens2 ++ fixedTokens3 ++ fixedTokens4

/-- Longest fixed-token match at the head of the input (0 when none
matches); distinct fixed tokens of equal length cannot both be prefixes. -/
def bestFixed (cs : List Char) : Nat × Option TokenKind :=
  fixedTokens.foldl
    (fun acc st =>
      if st.1.toList.isPrefixOf cs && acc.1 < st.1.length
      then (st.1.length, some st.2) else acc)
    (0, none)

/-- The regex-pattern candidates at the head of the input, in declaration
order. -/
def regexCandidates (cs : List Char) : List (Nat × TokenKind) :=
  [(identifierLen cs, .identifier), (annotLen cs, .annot),
   (stringLitLen cs, .stringLiteral), (hexLitLen cs, .hexLiteral),
   (addressLen cs, .addressLiteral), (numberLen cs, .number),
   (hexNumberLen cs, .hexNumber)]

/-- Maximal-munch choice of the next token: the candidate (fixed or regex)
with the longest match wins. Logos breaks ties of equal length by pattern
priority; here an earlier candidate wins, which agrees with logos on
keyword-versus-identifier ties. All theorems below only exercise inputs on
which the maximum is unique. -/
def maxMunch (cs : List Char) : Nat × Option TokenKind :=
  (regexCandidates cs).foldl
    (fun acc lk => if acc.1 < lk.1 then (lk.1, some lk.2) else acc)
    (bestFixed cs)

/-- The whitespace characters skipped by the lexer (`[ \t\n\f]+`). -/
def isWs (c : Char) : Bool :=
  c = ' ' || c = '\t' || c = '\n' || c = '\x0c'

/-- One pass of the logos tokenizer modelled as maximal-munch with skipping
of whitespace and `//`-line comments (`skip r"[ \t\n\f]+"`,
`skip r"//.*\n?"`). Produces `(kind, start, stop)` triples; an unmatched
character becomes an error token over that single character. The fuel is an
upper bound on the number of steps; every step consumes at least one
character. -/
def lexGo : Nat → List Char → Nat → List (TokenKind × Nat × Nat)
| 0, _, _ => []
| _ + 1, [], _ => []
| fuel + 1, c :: rest, pos =>
    if isWs c then lexGo fuel rest (pos + 1)
    else if c = '/' && rest.head? = some '/' then
      let body := countWhile (fun ch => ch ≠ '\n') rest.tail
      let k := 2 + body + (if (rest.tail.drop body).head? = some '\n' then 1 else 0)
      lexGo fuel ((c :: rest).drop k) (pos + k)
    else
      match maxMunch (c :: rest) with
      | (_, none) => (TokenKind.error, pos, pos + 1) :: lexGo fuel rest (pos + 1)
      | (l, some k) =>
          if l = 0 then (TokenKind.error, pos, pos + 1) :: lexGo fuel rest (pos + 1)
          else (k, pos, pos + l) :: lexGo fuel ((c :: rest).drop l) (pos + l)

/-- Tokenize a whole input. -/
def lexAll (cs : List Char) : List (TokenKind × Nat × Nat) :=
  lexGo cs.length cs 0

/-! Parser driver (parser/mod.rs `parse`) and the conversion of LALRPOP
parse errors to diagnostics (diagnostics.rs `From`). -/

/-- The LALRPOP `ParseError` over positions `usize`, tokens and
`LexicalError` user errors. -/
inductive ParseError where
| invalidToken (location : Nat)
| unrecognizedToken (l : Nat) (token : TokenKind) (r : Nat)
    (expected : List String)
| user (error : LexicalError)
| extraToken (l : Nat) (token : TokenKind) (r : Nat)
| unrecognizedEof (location : Nat) (expected : List String)
deriving DecidableEq, Repr

/-- A LALRPOP `ErrorRecovery` item: the recovered error (the dropped tokens
are not used by `parse`). -/
structure ErrorRecovery where
  error : ParseError
deriving DecidableEq, Repr

/-- Conversion of a LALRPOP parse error to a `Diagnostic`
(diagnostics.rs, `impl From<(&ParseError, usize)> for Diagnostic`). Every
variant becomes an error-level diagnostic of kind `ParserError`. The
`ExtraToken` arm prints the start position (`token.0`), as the source
does. -/
def Diagnostic.fromParseError (error : ParseError) (no : Nat) : Diagnostic :=
  match error with
  | .invalidToken location =>
      Diagnostic.build (Loc.file no location location) Level.error
        ErrorType.parserError "invalid token" []
  | .unrecognizedToken l token r expected =>
      Diagnostic.build (Loc.file no l r) Level.error ErrorType.parserError
        ("unrecognised token '" ++ token.show ++ "', expected " ++
          String.intercalate ", " expected) []
  | .user e =>
      Diagnostic.build e.loc Level.error ErrorType.parserError e.toMessage []
  | .extraToken l _token _r =>
      Diagnostic.build (Loc.file no l _r) Level.error ErrorType.parserError
        ("extra token '" ++ toString l ++ "' encountered") []
  | .unrecognizedEof location expected =>
      Diagnostic.build (Loc.file no location location) Level.error
        ErrorType.parserError
        ("unexpected end of file, expecting " ++
          String.intercalate ", " expected) []

/-- Modelled from the spec: the parse tree root `SourceUnit` is an ordered
sequence of source-unit parts (its defining module parser/ast.rs is generated
and absent from the snapshot); the parts' structure is not needed by any
claim. -/
structure SourceUnitStub where
  parts : List Unit
deriving DecidableEq, Repr

/-- Modelled from the spec: the LALRPOP-generated `SourceUnitParser`
(grammar.rs, generated at build time from the grammar file, absent from the
snapshot) returns a parse result and fills a side vector with recovered
errors. `parse` (parser/mod.rs) is parametrised by that outcome: on failure
it returns the recovered errors followed by the terminal error, each
converted to a diagnostic. -/
def parse (grammarOutcome : List ErrorRecovery × Except ParseError SourceUnitStub)
    (no : Nat) : Except (List Diagnostic) SourceUnitStub :=
  match grammarOutcome with
  | (_, Except.ok su) => Except.ok su
  | (errors, Except.error err) =>
      Except.error
        ((errors.map (fun e => Diagnostic.fromParseError e.error no)) ++
          [Diagnostic.fromParseError err no])

/-! File resolver (resolver.rs). Paths are modelled as plain strings with
`/`-separated components; the filesystem is a finite map from normalized path
to contents, so `canonicalize` succeeds exactly on existing files and the
canonical form of a path is its normalized form (no symbolic links). Read
errors cannot occur in this model (existence is what the map records). -/

/-- `String::starts_with`, computed on the character list so that it
kernel-reduces. -/
def strStartsWith (s pre : String) : Bool := pre.toList.isPrefixOf s.toList

/-- Drop the first `n` characters of a string. -/
def strDrop (s : String) (n : Nat) : String := String.mk (s.toList.drop n)

/-- Split a character list on a separator character. -/
def splitOnChar (sep : Char) : List Char → List (List Char)
| [] => [[]]
| x :: rest =>
    match splitOnChar sep rest with
    | [] => [[]]
    | g :: gs => if x = sep then [] :: g :: gs else (x :: g) :: gs

/-- Split a path into its `/`-separated components. -/
def pathComps (p : String) : List String :=
  (splitOnChar '/' p.toList).map String.mk

/-- A resolved file (resolver.rs `ResolvedFile`). -/
structure ResolvedFile where
  path : String
  full_path : String
  import_no : Option Nat
  contents : String
deriving DecidableEq, Repr, Inhabited

/-- The file resolver state (resolver.rs `FileResolver`): import paths (an
optional mapping name with a base path), the path cache, and the loaded
files. The cache is an association list where the most recent insertion
shadows older ones, mirroring `HashMap::insert`. -/
structure FileResolver where
  import_paths : List (Option String × String)
  cached_paths : List (String × Nat)
  files : List ResolvedFile
deriving DecidableEq, Repr, Inhabited

/-- The filesystem: a finite map from normalized path to file contents. -/
abbrev Fs := List (String × String)

/-- Lookup in the filesystem map. -/
def fsLookup (fs : Fs) (p : String) : Option String :=
  (fs.find? (fun e => e.1 = p)).map (fun e => e.2)

/-- `Path::join` on string paths. -/
def pathJoin (a b : String) : String := a ++ "/" ++ b

/-- Strip `.` components and resolve `..` components
(the `normalize_path::NormalizePath` normalization; `..` at the root is
dropped). Empty components collapse. -/
def pathNormalize (p : String) : String :=
  let comps := (pathComps p).filter (fun c => !(c = "" || c = "."))
  let final := comps.foldl
    (fun (acc : List String) c => if c = ".." then acc.dropLast else acc ++ [c])
    []
  (if strStartsWith p "/" then "/" else "") ++ String.intercalate "/" final

/-- Parent directory of a path (`Path::parent`, with `.` when there is
none). -/
def pathParent (p : String) : String :=
  let comps := pathComps p
  if comps.length ≤ 1 then "." else String.intercalate "/" comps.dropLast

/-- Whether a path is absolute (`Path::is_absolute`). -/
def isAbsolutePath (p : String) : Bool := strStartsWith p "/"

/-- Component-wise `Path::strip_prefix`. -/
def stripPathPref (m p : String) : Option String :=
  if p = m then some ""
  else if strStartsWith p (m ++ "/") then some (strDrop p (m.length + 1))
  else none

/-- `FileResolver::load_file`: populate the cache, reusing an entry cached
under the filename when its `import_no` matches. -/
def FileResolver.load_file (r : FileResolver) (fs : Fs)
    (filename path : String) (import_no : Option Nat) :
    FileResolver × ResolvedFile :=
  let fresh : FileResolver × ResolvedFile :=
    let contents := (fsLookup fs path).getD ""
    let pos := r.files.length
    let f : ResolvedFile :=
      { path := filename, full_path := path, import_no := import_no,
        contents := contents }
    ({ r with files := r.files ++ [f],
               cached_paths := (path, pos) :: r.cached_paths }, f)
  match (r.cached_paths.find? (fun e => e.1 = filename)).map (fun e => e.2) with
  | some cache =>
      let f := r.files.getD cache default
      if f.import_no = import_no then (r, f) else fresh
  | none => fresh

/-- `FileResolver::try_file`: look the path up in the cache (after
normalization) and otherwise load it from the filesystem when it exists. -/
def FileResolver.try_file (r : FileResolver) (fs : Fs)
    (filename path : String) (import_no : Option Nat) :
    FileResolver × Option ResolvedFile :=
  let cache_path := pathNormalize path
  match (r.cached_paths.find? (fun e => e.1 = cache_path)).map (fun e => e.2) with
  | some i =>
      (r, some { r.files.getD i default with import_no := import_no })
  | none =>
      match fsLookup fs cache_path with
      | some _ =>
          let (r', f) := r.load_file fs filename cache_path import_no
          (r', some f)
      | none => (r, none)

/-- Apply every mapping entry, in order, to the requested path
(resolver.rs `resolve`, the `first check maps` loop); each mapping strips its
name from the original request. -/
def FileResolver.applyMaps (r : FileResolver) (path_filename : String) :
    String :=
  r.import_paths.foldl
    (fun remapped mp =>
      match mp.1 with
      | some mapping =>
          match stripPathPref mapping path_filename with
          | some rel => pathJoin mp.2 rel
          | none => remapped
      | none => remapped)
    path_filename

/-- Walk the unnamed import paths in order, collecting every candidate that
resolves (resolver.rs `resolve`, the `walk over the import paths` loop). -/
def walkImportPaths (fs : Fs) (filename path : String) :
    FileResolver → List (Nat × (Option String × String)) → List ResolvedFile →
    FileResolver × List ResolvedFile
| r, [], acc => (r, acc)
| r, (import_no, (none, import_path)) :: rest, acc =>
    let p := pathJoin import_path path
    match r.try_file fs filename p (some import_no) with
    | (r', some f) => walkImportPaths fs filename path r' rest (acc ++ [f])
    | (r', none) => walkImportPaths fs filename path r' rest acc
| r, (_, (some _, _)) :: rest, acc => walkImportPaths fs filename path r rest acc

/-- The candidate files for a non-relative request: apply the mappings, walk
the unnamed import paths, and — when no unnamed import path is configured —
try the remapped path directly (resolver.rs `resolve`, steps 3 to 5). -/
def FileResolver.resolveCandidates (r : FileResolver) (fs : Fs)
    (filename : String) : FileResolver × List ResolvedFile :=
  let path := r.applyMaps filename
  let (r1, result) := walkImportPaths fs filename path r r.import_paths.enum []
  if !(r.import_paths.any (fun mp => mp.1 = none)) then
    match r1.try_file fs filename path none with
    | (r2, some f) => (r2, result ++ [f])
    | (r2, none) => (r2, result)
  else (r1, result)

/-- The ambiguity error message listing every candidate's full path. -/
def multiMsg (filename : String) (result : List ResolvedFile) : String :=
  "found multiple files matching: '" ++ filename ++ "': " ++
    String.intercalate ", " (result.map (fun f => "'" ++ f.full_path ++ "'"))

/-- The `file not found` error message. -/
def notFoundMsg (filename : String) : String :=
  "file not found '" ++ filename ++ "'"

/-- `FileResolver::resolve` (resolver.rs): relative requests resolve against
the parent only; without a parent a literal path is tried as-is; otherwise
the mappings are applied, the unnamed import paths walked, and the outcome
decided by the number of candidates. -/
def FileResolver.resolve (r : FileResolver) (fs : Fs)
    (parent : Option ResolvedFile) (filename : String) :
    FileResolver × Except String ResolvedFile :=
  if strStartsWith filename "./" || strStartsWith filename "../" then
    match parent with
    | some pf =>
        let base := pathParent pf.full_path
        let path := pathJoin base filename
        match r.try_file fs filename path pf.import_no with
        | (r', some f) => (r', Except.ok f)
        | (r', none) => (r', Except.error (notFoundMsg filename))
    | none => (r, Except.error (notFoundMsg filename))
  else
    let step : FileResolver × Option (Except String ResolvedFile) :=
      match parent with
      | none =>
          match r.try_file fs filename filename none with
          | (r', some f) => (r', some (Except.ok f))
          | (r', none) =>
              if isAbsolutePath filename then
                (r', some (Except.error (notFoundMsg filename)))
              else (r', none)
      | some _ => (r, none)
    match step with
    | (r', some res) => (r', res)
    | (r', none) =>
        let (r2, result) := r'.resolveCandidates fs filename
        match result with
        | [] => (r2, Except.error (notFoundMsg filename))
        | [f] => (r2, Except.ok f)
        | _ => (r2, Except.error (multiMsg filename result))

/-! The semantic data model (semantic/ast.rs and the parse-tree types it
reuses). The parse-tree module parser/ast.rs is generated and absent from the
snapshot; the shapes used below are fixed by their uses in the semantic
passes and by the spec. -/

/-- A parse-tree identifier (`pt::Identifier`): a name with its location. -/
structure Identifier where
  loc : Loc
  name : String
deriving DecidableEq, Repr, Inhabited

/-- Contract kind (`pt::ContractTy`), each variant carrying its keyword
location. -/
inductive ContractTy where
| contract (l : Loc)
| abstract (l : Loc)
| interface (l : Loc)
| library (l : Loc)
deriving DecidableEq, Repr, Inhabited

/-- The `Display` form of a contract kind. -/
def ContractTy.str : ContractTy → String
| .contract _ => "contract"
| .abstract _ => "abstract contract"
| .interface _ => "interface"
| .library _ => "library"

/-- A resolved expression (semantic/ast.rs `Expression`): in this snapshot
the enum has no variants, so the type is empty. -/
inductive SemExpr where
deriving DecidableEq, Repr

/-- A resolved base-contract entry (semantic/ast.rs `Base`). `ctor` models
the `constructor` field (an optional constructor index with its resolved
argument expressions). -/
structure Base where
  loc : Loc
  contract_no : Nat
  ctor : Option (Nat × List SemExpr)
deriving DecidableEq, Repr, Inhabited

/-- A resolved contract (semantic/ast.rs `Contract`, restricted to the
fields read by the passes under verification). -/
structure Contract where
  loc : Loc
  ty : ContractTy
  id : Identifier
  bases : List Base
deriving DecidableEq, Repr, Inhabited

/-- `Contract::is_interface`. -/
def Contract.is_interface (c : Contract) : Bool :=
  match c.ty with
  | .interface _ => true
  | _ => false

/-- `Contract::is_library`. -/
def Contract.is_library (c : Contract) : Bool :=
  match c.ty with
  | .library _ => true
  | _ => false

/-- A semantic symbol-table entry (semantic/ast.rs `Symbol`). `var` models
the `Variable` variant. -/
inductive Symbol where
| enum (l : Loc) (n : Nat)
| function (entries : List (Loc × Nat))
| var (l : Loc) (c : Option Nat) (n : Nat)
| event (entries : List (Loc × Nat))
| error (l : Loc) (n : Nat)
| contract (l : Loc) (n : Nat)
| importSym (l : Loc) (n : Nat)
| userType (l : Loc) (n : Nat)
deriving DecidableEq, Repr

/-- Resolved types (the semantic `Type`), restricted to the variants the
verified passes inspect. -/
inductive Ty where
| bool
| uint (w : Nat)
| userType (n : Nat)
| contractTy (n : Nat)
deriving DecidableEq, Repr, Inhabited

/-- Function mutability (`pt::Mutability`), each with its keyword
location. -/
inductive Mutability where
| pure (l : Loc)
| view (l : Loc)
| nonpayable (l : Loc)
| payable (l : Loc)
deriving DecidableEq, Repr, Inhabited

/-- The `Display` form of a mutability. -/
def Mutability.str : Mutability → String
| .pure _ => "pure"
| .view _ => "view"
| .nonpayable _ => "nonpayable"
| .payable _ => "payable"

/-- The `matches!(ty, Type::UserType(_))` test. -/
def Ty.isUserType : Ty → Bool
| .userType _ => true
| _ => false

/-- The `matches!(m, Mutability::Pure(_))` test. -/
def Mutability.isPure : Mutability → Bool
| .pure _ => true
| _ => false

/-- Function kind (`pt::FunctionTy`). -/
inductive FunctionTy where
| constructorFn
| function
| fallback
| receive
| modifier
deriving DecidableEq, Repr, Inhabited

/-- A resolved parameter, restricted to its type. -/
structure Parameter where
  ty : Ty
deriving DecidableEq, Repr, Inhabited

/-- A resolved function (the semantic `Function`), restricted to the fields
read by the using resolver and the mutability checker. -/
structure Function where
  loc_prototype : Loc
  id : String
  ty : FunctionTy
  mutability : Mutability
  contract_no : Option Nat
  params : List Parameter
  returns : List Parameter
  is_accessor : Bool
  is_virtual : Bool
deriving DecidableEq, Repr, Inhabited

/-- `Function::is_public`: external or public visibility. Visibility is not
otherwise needed, so the flag is stored directly. -/
structure FunctionVisibility where
  is_public : Bool
deriving DecidableEq, Repr

/-- A user-defined operator (`pt::UserDefinedOperator`). Modelled from the
spec (parser/ast.rs is absent from the snapshot): the bindable Solidity
operators; `-` is parsed as `subtract` and later disambiguated from `negate`
by arity. -/
inductive UserDefinedOperator where
| bitwiseAnd
| bitwiseNot
| bitwiseOr
| bitwiseXor
| add
| divide
| modulo
| multiply
| negate
| subtract
| equal
| notEqual
| less
| lessEqual
| more
| moreEqual
deriving DecidableEq, Repr

/-- Modelled from the spec: the operator's arity (unary for negation and
bitwise complement, binary otherwise). -/
def UserDefinedOperator.args : UserDefinedOperator → Nat
| .bitwiseNot => 1
| .negate => 1
| _ => 2

/-- Modelled from the spec: whether the operator is a comparison (these must
return `bool`). -/
def UserDefinedOperator.is_comparison : UserDefinedOperator → Bool
| .equal => true
| .notEqual => true
| .less => true
| .lessEqual => true
| .more => true
| .moreEqual => true
| _ => false

/-- The `Display` form of a user-defined operator. -/
def UserDefinedOperator.str : UserDefinedOperator → String
| .bitwiseAnd => "&"
| .bitwiseNot => "~"
| .bitwiseOr => "|"
| .bitwiseXor => "^"
| .add => "+"
| .divide => "/"
| .modulo => "%"
| .multiply => "*"
| .negate => "-"
| .subtract => "-"
| .equal => "=="
| .notEqual => "!="
| .less => "<"
| .lessEqual => "<="
| .more => ">"
| .moreEqual => ">="

/-- A resolved using-directive function entry (the semantic
`UsingFunction`, as constructed in semantic/using.rs). -/
structure UsingFunction where
  loc : Loc
  function_no : Nat
  oper : Option UserDefinedOperator
deriving DecidableEq, Repr

/-- The target list of a resolved using directive (the semantic
`UsingList`). -/
inductive UsingList where
| library (n : Nat)
| functions (fs : List UsingFunction)
deriving DecidableEq, Repr

/-- A resolved using directive (the semantic `Using`, as constructed in
semantic/using.rs `visit_using`). -/
structure Using where
  list : UsingList
  ty : Option Ty
  file_no : Option Nat
deriving DecidableEq, Repr

/-- An enum declaration interned by the type resolver
(the semantic `EnumDecl` built in semantic/types.rs `enum_decl`): name,
location, enclosing contract name, representation type and the ordered
value map. -/
structure EnumDecl where
  id : Identifier
  loc : Loc
  contract : Option String
  ty : Ty
  values : List (String × Loc)
deriving DecidableEq, Repr

/-- The shared semantic context (semantic/context.rs `Context`), restricted
to the fields the verified passes read or write. The two symbol tables are
association lists keyed by `(file_no, contract_no?, name)` where the most
recent insertion shadows older ones. -/
structure Context where
  contracts : List Contract
  functions : List Function
  enums : List EnumDecl
  user_types : List String
  usings : List Using
  diagnostics : Diagnostics
  function_symbols : List ((Nat × Option Nat × String) × Symbol)
  variable_symbols : List ((Nat × Option Nat × String) × Symbol)
deriving Repr

/-- Lookup in a symbol table. -/
def symLookup (m : List ((Nat × Option Nat × String) × Symbol))
    (k : Nat × Option Nat × String) : Option Symbol :=
  (m.find? (fun e => e.1 = k)).map (fun e => e.2)

/-- Insert into a symbol table (`HashMap::insert` semantics: the new entry
shadows any previous entry for the key). -/
def symInsert (m : List ((Nat × Option Nat × String) × Symbol))
    (k : Nat × Option Nat × String) (v : Symbol) :
    List ((Nat × Option Nat × String) × Symbol) :=
  (k, v) :: m.filter (fun e => !(e.1 = k))

/-- The `Display` form of a resolved type (the semantic `Type::to_string`,
restricted to the modelled variants). -/
def Ty.str (t : Ty) (ctx : Context) : String :=
  match t with
  | .bool => "bool"
  | .uint w => "uint" ++ toString w
  | .userType n => "usertype " ++ (ctx.user_types.getD n "")
  | .contractTy n =>
      "contract " ++ ((ctx.contracts.getD n default).id.name)

/-- `Context::wrong_symbol` (semantic/context.rs): the declaration error
reported when a name resolves to the wrong kind of symbol (or to nothing). -/
def Context.wrong_symbol (symbol : Option Symbol) (id : Identifier) :
    Diagnostic :=
  let msg : String :=
    match symbol with
    | none => "'" ++ id.name ++ "' not found"
    | some (Symbol.enum _ _) => "'" ++ id.name ++ "' is an enum"
    | some (Symbol.event _) => "'" ++ id.name ++ "' is an event"
    | some (Symbol.error _ _) => "'" ++ id.name ++ "' is an error"
    | some (Symbol.function _) => "'" ++ id.name ++ "' is a function"
    | some (Symbol.contract _ _) => "'" ++ id.name ++ "' is a contract"
    | some (Symbol.importSym _ _) => "'" ++ id.name ++ "' is an import"
    | some (Symbol.userType _ _) => "'" ++ id.name ++ "' is an user type"
    | some (Symbol.var _ _ _) => "'" ++ id.name ++ "' is a contract variable"
  Diagnostic.build id.loc Level.error ErrorType.declarationError msg []

/-- Modelled from the spec: `Context::add_symbol` (its body is `todo!()` in
semantic/context.rs). Function and event symbols live in the overload-aware
function table; every other symbol must be unique per
`(file_no, contract_no?, name)` key in the variable table. Rebinding a key
to a different symbol records an error diagnostic and fails; rebinding to an
identical symbol silently keeps the first definition. -/
def Context.add_symbol (ctx : Context) (no : Nat) (contract_no : Option Nat)
    (id : Identifier) (symbol : Symbol) : Context × Bool :=
  let key := (no, contract_no, id.name)
  match symbol with
  | Symbol.function _ | Symbol.event _ =>
      ({ ctx with function_symbols := symInsert ctx.function_symbols key symbol },
       true)
  | _ =>
      match symLookup ctx.variable_symbols key with
      | some existing =>
          if existing = symbol then (ctx, true)
          else
            ({ ctx with diagnostics :=
                ctx.diagnostics.push (Context.wrong_symbol (some existing) id) },
             false)
      | none =>
          ({ ctx with variable_symbols := symInsert ctx.variable_symbols key symbol },
           true)

/-! Type-declaration resolver: semantic/types.rs `TypeResolver::enum_decl`. -/

/-- A parse-tree enum definition (`pt::EnumDefinition`). In the parse tree
the name and the values are `Option`s for error recovery and `enum_decl`
unwraps them; the already-unwrapped form is modelled. -/
structure EnumDefinition where
  loc : Loc
  name : Identifier
  values : List Identifier
deriving DecidableEq, Repr

/-- The duplicate-check loop of `enum_decl`: fold the values into the
ordered entry map, recording an error (with a note pointing at the previous
definition) for every repeated name. Returns the entries, the diagnostics
in order, and whether any duplicate was found. -/
def enumEntriesGo :
    List (String × Loc) → List Diagnostic → Bool → List Identifier →
    List (String × Loc) × List Diagnostic × Bool
| entries, diags, dup, [] => (entries, diags, dup)
| entries, diags, dup, e :: rest =>
    match (entries.find? (fun p => p.1 = e.name)).map (fun p => p.2) with
    | some prev =>
        enumEntriesGo entries
          (diags ++ [Diagnostic.build e.loc Level.error ErrorType.none
            ("duplicate enum value " ++ e.name)
            [{ loc := prev, message := "location of previous definition" }]])
          true rest
    | none => enumEntriesGo (entries ++ [(e.name, e.loc)]) diags dup rest

/-- `TypeResolver::enum_decl` (semantic/types.rs): records an error for an
empty enum, an error when the enum has more than 256 values, and an error
for every duplicate value; then interns the declaration and its symbol.
Returns the updated context and the validity flag. -/
def enum_decl (ctx : Context) (no : Nat) (d : EnumDefinition)
    (contract_no : Option Nat) : Context × Bool :=
  let sizeDiags : List Diagnostic :=
    if d.values = [] then
      [Diagnostic.error d.name.loc ("enum '" ++ d.name.name ++ "' has no fields")]
    else if 256 < d.values.length then
      [Diagnostic.error d.name.loc
        ("enum '" ++ d.name.name ++ "' has " ++ toString d.values.length ++
          " fields, which is more than the 256 limit")]
    else []
  let valid0 := sizeDiags = []
  let (entries, dupDiags, dup) := enumEntriesGo [] [] false d.values
  let decl : EnumDecl :=
    { id := d.name, loc := d.loc,
      contract := contract_no.map
        (fun c => (ctx.contracts.getD c default).id.name),
      ty := Ty.uint 8, values := entries }
  let pos := ctx.enums.length
  let ctx1 := { ctx with
    diagnostics := (ctx.diagnostics.append sizeDiags).append dupDiags,
    enums := ctx.enums ++ [decl] }
  let (ctx2, ok) :=
    ctx1.add_symbol no contract_no d.name (Symbol.enum d.name.loc pos)
  (ctx2, valid0 && !dup && ok)

/-! Mutability checker (semantic/mutability.rs). -/

/-- The access lattice (`mutability.rs Access`):
`None < Read < Write < Value`. -/
inductive Access where
| noAccess
| read
| write
| value
deriving DecidableEq, Repr

/-- Rank of an access level (the derived `PartialOrd` on the C-like
enum). -/
def Access.rank : Access → Nat
| .noAccess => 0
| .read => 1
| .write => 2
| .value => 3

/-- Strict order on access levels. -/
def Access.lt (a b : Access) : Bool := a.rank < b.rank

/-- `Access::increase_to`: join with another level. -/
def Access.increase_to (a b : Access) : Access := if a.lt b then b else a

/-- The declared access level of a function (`check_mutability`):
`pure → None`, `view → Read`, `nonpayable → Write`, `payable → Value`. -/
def declaredAccess : Mutability → Access
| .pure _ => Access.noAccess
| .view _ => Access.read
| .nonpayable _ => Access.write
| .payable _ => Access.value

/-- One access bump recorded while walking a function body or an invoked
modifier: the expression location, the access level it requires, and — when
the bump happened inside a modifier — the modifier invocation's location.
The body walk itself (`recurse_statements` and the expression visitors)
operates on the resolved statement and expression enums, which are empty
placeholder types in this snapshot; the walk is therefore abstracted as its
output list of bumps, in visit order. -/
structure AccessEvent where
  loc : Loc
  desired : Access
  modifierLoc : Option Loc
deriving DecidableEq, Repr

/-- `StateCheck::check_level`: when the declared level is below the desired
level, report the access violation (with the modifier-shaped message when
the bump came from a modifier). -/
def check_level (mutability : Mutability) (declared : Access)
    (ev : AccessEvent) : List Diagnostic :=
  if !(declared.lt ev.desired) then []
  else
    let pair : String × String :=
      match ev.desired with
      | Access.read => ("reads from state", "read to state")
      | Access.write => ("writes to state", "write to state")
      | Access.value =>
          ("accesses value sent, which is only allowed for payable functions",
           "access of value sent")
      | Access.noAccess => ("", "")
    match ev.modifierLoc with
    | some modifier_loc =>
        [Diagnostic.build modifier_loc Level.error ErrorType.none
          ("function declared '" ++ mutability.str ++ "' but modifier " ++
            pair.1)
          [{ loc := ev.loc, message := pair.2 }]]
    | none =>
        [Diagnostic.error ev.loc
          ("function declared '" ++ mutability.str ++ "' but this expression "
            ++ pair.1)]

/-- The access level required by a list of bumps (the final
`required_access` of the state walk). -/
def requiredAccess (events : List AccessEvent) : Access :=
  events.foldl (fun a ev => a.increase_to ev.desired) Access.noAccess

/-- `check_mutability` (semantic/mutability.rs): virtual functions are
skipped; every bump below the declared level is fine, every bump above it is
an error; afterwards, for a plain non-accessor function, a downgrade
suggestion is emitted when nothing was required (except for pure and payable
functions) and when only reads were required by a nonpayable function. -/
def check_mutability (func : Function) (events : List AccessEvent) :
    List Diagnostic :=
  if func.is_virtual then []
  else
    let declared := declaredAccess func.mutability
    let errs := events.foldl
      (fun acc ev => acc ++ check_level func.mutability declared ev) []
    let required := requiredAccess events
    let warns : List Diagnostic :=
      if func.ty = FunctionTy.function && !func.is_accessor then
        (if required = Access.noAccess then
          match func.mutability with
          | Mutability.payable _ => []
          | Mutability.pure _ => []
          | Mutability.nonpayable _ =>
              [Diagnostic.warning func.loc_prototype
                "function can be declared 'pure'"]
          | m =>
              [Diagnostic.warning func.loc_prototype
                ("function declared '" ++ m.str ++ "' can be declared 'pure'")]
         else []) ++
        (if required = Access.read && declared = Access.write then
          [Diagnostic.warning func.loc_prototype
            "function can be declared 'view'"]
         else [])
      else []
    errs ++ warns

/-! Using / operator-binding resolver (semantic/using.rs). -/

/-- A parse-tree using-directive function entry (`pt::UsingFunction`): the
function's identifier path (modelled as a single identifier) and the
optional operator it is bound to. -/
structure PtUsingFunction where
  loc : Loc
  path : Identifier
  oper : Option UserDefinedOperator
deriving DecidableEq, Repr

/-- Modelled from the spec: `Context::resolve_function_with_namespace`
bottoms out in `resolve_namespace`, which is `todo!()` in
semantic/context.rs. Per the spec, a plain name resolves to the symbol bound
at `(file_no, contract_no?, name)` in the function namespace, falling back
to file scope; a `Function` symbol yields its overload list and anything
else reports `wrong_symbol`. -/
def Context.resolve_function_with_namespace (ctx : Context) (file_no : Nat)
    (contract_no : Option Nat) (name : Identifier) :
    Except (List Diagnostic) (List (Loc × Nat)) :=
  let s :=
    match symLookup ctx.function_symbols (file_no, contract_no, name.name) with
    | some s => some s
    | none =>
        if contract_no.isSome then
          symLookup ctx.function_symbols (file_no, none, name.name)
        else none
  match s with
  | some (Symbol.function list) => Except.ok list
  | other => Except.error [Context.wrong_symbol other name]

/-- `user_defined_operator_binding` (semantic/using.rs): the first binding
in scope for the given type and operator. -/
def user_defined_operator_binding (ty : Ty) (oper : UserDefinedOperator)
    (ctx : Context) : Option UsingFunction :=
  (ctx.usings.filter (fun u => u.ty = some ty)).findSome?
    (fun u =>
      match u.list with
      | UsingList.functions funcs =>
          funcs.find? (fun uf => uf.oper = some oper)
      | _ => none)

/-- The note `definition of '<name>'`. -/
def defNote (loc : Loc) (name : String) : Note :=
  { loc := loc, message := "definition of '" ++ name ++ "'" }

/-- The outcome of one iteration of the `resove_functions` loop: continue
with updated accumulators, or break out of the loop (the `break` statements
of the source). -/
inductive LoopStep where
| cont (d : List Diagnostic) (r : List UsingFunction)
| brk (d : List Diagnostic) (r : List UsingFunction)
deriving DecidableEq, Repr

/-- The binding accumulator carried by a loop-step outcome. -/
def LoopStep.resOf : LoopStep → List UsingFunction
| .cont _ r => r
| .brk _ r => r

/-- The `overloaded function` error of `resove_functions`. -/
def overloadedDiag (name : Identifier) (list : List (Loc × Nat)) :
    Diagnostic :=
  Diagnostic.build name.loc Level.error ErrorType.none
    ("'" ++ name.name ++ "' is an overloaded function")
    (list.map (fun e => defNote e.1 name.name))

/-- The `not a library function` error of `resove_functions`. -/
def notLibraryDiag (name : Identifier) (func : Function) : Diagnostic :=
  Diagnostic.build name.loc Level.error ErrorType.none
    ("'" ++ name.name ++ "' is not a library function")
    [{ loc := func.loc_prototype, message := "definition of " ++ name.name }]

/-- The `has no arguments` error of `resove_functions`. -/
def noArgsDiag (name : Identifier) (loc : Loc) : Diagnostic :=
  Diagnostic.build name.loc Level.error ErrorType.none
    ("'" ++ name.name ++ "' has no arguments. At least one argument required")
    [defNote loc name.name]

/-- The `only in a global directive` error for operator bindings. -/
def operGlobalDiag (uloc : Loc) : Diagnostic :=
  Diagnostic.error uloc
    "user defined operator can only be set in a global 'using for' directive"

/-- The `only on user defined types` error for operator bindings. -/
def operUserTypeDiag (uloc : Loc) (t : Ty) (ctx : Context) : Diagnostic :=
  Diagnostic.error uloc
    ("user defined operator can only be used with user defined types. Type "
      ++ t.str ctx ++ " not permitted")

/-- The arity error for the ambiguous `-` operator. -/
def minusArityDiag (uloc loc : Loc) (name : Identifier) : Diagnostic :=
  Diagnostic.build uloc Level.error ErrorType.none
    "user defined operator function for '-' must have 1 parameter for negate, or 2 parameters for subtract"
    [defNote loc name.name]

/-- The parameter-count/type error for an operator binding. -/
def operArgsDiag (uloc : Loc) (oper : UserDefinedOperator) (t : Ty)
    (ctx : Context) (loc : Loc) (name : Identifier) : Diagnostic :=
  Diagnostic.build uloc Level.error ErrorType.none
    ("user defined operator function for '" ++ oper.str ++ "' must have " ++
      toString oper.args ++ " arguments of type " ++ t.str ctx)
    [defNote loc name.name]

/-- The bool-return error for a comparison operator binding. -/
def operBoolRetDiag (uloc : Loc) (oper : UserDefinedOperator) (loc : Loc)
    (name : Identifier) : Diagnostic :=
  Diagnostic.build uloc Level.error ErrorType.none
    ("user defined operator function for '" ++ oper.str ++
      "' must have one bool return type")
    [defNote loc name.name]

/-- The return-type error for a non-comparison operator binding. -/
def operRetDiag (uloc : Loc) (oper : UserDefinedOperator) (t : Ty)
    (ctx : Context) (loc : Loc) (name : Identifier) : Diagnostic :=
  Diagnostic.build uloc Level.error ErrorType.none
    ("user defined operator function for '" ++ oper.str ++
      "' must have single return type " ++ t.str ctx)
    [defNote loc name.name]

/-- The pure-mutability error for an operator binding. -/
def operPureDiag (uloc : Loc) (oper : UserDefinedOperator) (loc : Loc)
    (name : Identifier) : Diagnostic :=
  Diagnostic.build uloc Level.error ErrorType.none
    ("user defined operator function for '" ++ oper.str ++
      "' must have pure mutability")
    [defNote loc name.name]

/-- The note attached to redefinition diagnostics. -/
def operPrevNote (oper : UserDefinedOperator) (existing : UsingFunction)
    (ctx : Context) : Note :=
  { loc := existing.loc,
    message := "previous definition of '" ++ oper.str ++ "' was '" ++
      (ctx.functions.getD existing.function_no default).id ++ "'" }

/-- The redefinition error (existing binding names another function). -/
def operRedefDiag (uloc : Loc) (oper : UserDefinedOperator)
    (existing : UsingFunction) (ctx : Context) : Diagnostic :=
  Diagnostic.build uloc Level.error ErrorType.none
    ("user defined operator for '" ++ oper.str ++ "' redefined")
    [operPrevNote oper existing ctx]

/-- The redefinition warning (existing binding names the same function). -/
def operRedefSameDiag (uloc : Loc) (oper : UserDefinedOperator)
    (existing : UsingFunction) (ctx : Context) : Diagnostic :=
  Diagnostic.build uloc Level.warning ErrorType.none
    ("user defined operator for '" ++ oper.str ++
      "' redefined to same function")
    [operPrevNote oper existing ctx]

/-- The implicit-cast error for a non-operator entry. -/
def castFailDiag (name : Identifier) (func : Function) (ty : Option Ty)
    (ctx : Context) (loc : Loc) : Diagnostic :=
  Diagnostic.build name.loc Level.error ErrorType.none
    ("function cannot be used since first argument is '"
      ++ ((func.params.getD 0 default).ty.str ctx) ++
      "' rather than the required '" ++ ((ty.getD Ty.bool).str ctx) ++ "'")
    [defNote loc name.name]

/-- The operator-specific checks of a `resove_functions` entry, applied
once the operator's arity has been disambiguated (the tail of the
`Some(oper)` arm in semantic/using.rs): parameter count and types, return
type, pure mutability, and the existing-binding check. -/
def resoveOperChecked (ctx : Context) (u : PtUsingFunction) (loc : Loc)
    (func_no : Nat) (func : Function) (oper : UserDefinedOperator) (t : Ty)
    (diags : List Diagnostic) (res : List UsingFunction) : LoopStep :=
  if func.params.length ≠ oper.args ||
     func.params.any (fun p => p.ty ≠ t) then
    LoopStep.cont (diags ++ [operArgsDiag u.loc oper t ctx loc u.path]) res
  else if oper.is_comparison &&
      !(func.returns.length = 1 &&
        (func.returns.getD 0 default).ty = Ty.bool) then
    LoopStep.cont (diags ++ [operBoolRetDiag u.loc oper loc u.path]) res
  else if !oper.is_comparison &&
      !(func.returns.length = 1 && (func.returns.getD 0 default).ty = t) then
    LoopStep.cont (diags ++ [operRetDiag u.loc oper t ctx loc u.path]) res
  else if !func.mutability.isPure then
    LoopStep.cont (diags ++ [operPureDiag u.loc oper loc u.path]) res
  else
    match user_defined_operator_binding t oper ctx with
    | some existing =>
        LoopStep.cont
          (diags ++
            [if existing.function_no ≠ func_no then
              operRedefDiag u.loc oper existing ctx
             else operRedefSameDiag u.loc oper existing ctx]) res
    | none =>
        LoopStep.cont diags
          (res ++ [{ loc := u.loc, function_no := func_no,
                     oper := some oper }])

/-- One iteration of the `UsingResolver::resove_functions` loop
(semantic/using.rs; the source spells it so): resolve the listed function,
check the operator-binding rules, and either extend the diagnostics, extend
the binding list, or abandon the rest of the list. `castOk` abstracts the
implicit-cast query `Expression::cast` performed for non-operator entries
(the resolved expression type is an empty placeholder in this snapshot, so
the cast relation is a parameter). -/
def resoveOne (ctx : Context) (no : Nat) (contract_no : Option Nat)
    (usingGlobal : Option Identifier) (ty : Option Ty)
    (castOk : Ty → Ty → Bool) (u : PtUsingFunction)
    (diags : List Diagnostic) (res : List UsingFunction) : LoopStep :=
  match ctx.resolve_function_with_namespace no contract_no u.path with
  | Except.error ds => LoopStep.cont (diags ++ ds) res
  | Except.ok list =>
      if 1 < list.length then
        LoopStep.cont (diags ++ [overloadedDiag u.path list]) res
      else
        match list.head? with
        | none =>
            -- `list[0]` in the source; an empty overload list cannot be
            -- produced for a `Function` symbol.
            LoopStep.cont diags res
        | some (loc, func_no) =>
            let func := ctx.functions.getD func_no default
            let notLibrary :=
              match func.contract_no with
              | some cn => !(ctx.contracts.getD cn default).is_library
              | none => false
            if notLibrary then
              LoopStep.cont (diags ++ [notLibraryDiag u.path func]) res
            else if func.params = [] then
              LoopStep.cont (diags ++ [noArgsDiag u.path loc]) res
            else
              match u.oper with
              | some oper0 =>
                  if contract_no.isSome || usingGlobal.isNone || ty.isNone then
                    LoopStep.brk (diags ++ [operGlobalDiag u.loc]) res
                  else
                    let t := ty.getD Ty.bool
                    if !t.isUserType then
                      LoopStep.brk
                        (diags ++ [operUserTypeDiag u.loc t ctx]) res
                    else if oper0 = UserDefinedOperator.subtract ||
                        oper0 = UserDefinedOperator.negate then
                      -- the parser cannot tell negation from subtraction;
                      -- disambiguate by arity
                      match func.params.length with
                      | 1 => resoveOperChecked ctx u loc func_no func
                          UserDefinedOperator.negate t diags res
                      | 2 => resoveOperChecked ctx u loc func_no func
                          UserDefinedOperator.subtract t diags res
                      | _ => LoopStep.cont
                          (diags ++ [minusArityDiag u.loc loc u.path]) res
                    else
                      resoveOperChecked ctx u loc func_no func oper0 t diags
                        res
              | none =>
                  let castFail :=
                    match ty with
                    | some t => !castOk t (func.params.getD 0 default).ty
                    | none => false
                  if castFail then
                    LoopStep.cont
                      (diags ++ [castFailDiag u.path func ty ctx loc]) res
                  else
                    LoopStep.cont diags
                      (res ++ [{ loc := u.loc, function_no := func_no,
                                 oper := none }])

/-- `UsingResolver::resove_functions`: the loop over the listed functions,
driven by `resoveOne`; a `brk` outcome abandons the remaining entries. -/
def resove_functions (ctx : Context) (no : Nat) (contract_no : Option Nat)
    (usingGlobal : Option Identifier) (ty : Option Ty)
    (castOk : Ty → Ty → Bool) :
    List PtUsingFunction → List Diagnostic → List UsingFunction →
    List Diagnostic × List UsingFunction
| [], diags, res => (diags, res)
| u :: rest, diags, res =>
    match resoveOne ctx no contract_no usingGlobal ty castOk u diags res with
    | LoopStep.cont d r =>
        resove_functions ctx no contract_no usingGlobal ty castOk rest d r
    | LoopStep.brk d r => (d, r)

/-- `UsingResolver::resolve_global` (semantic/using.rs): validate the
trailing identifier of `using … for T global;`. Returns the diagnostics and
the resulting `file_no` of the binding (file-scoped unless `global` on a
user-defined type). -/
def resolve_global (_ctx : Context) (no : Nat) (contract_no : Option Nat)
    (globalId : Identifier) (ty : Option Ty) :
    List Diagnostic × Option Nat :=
  if globalId.name = "global" then
    if contract_no.isSome then
      ([Diagnostic.error globalId.loc
        ("'" ++ globalId.name ++ "' on using within contract not permitted")],
       some no)
    else
      match ty with
      | some (Ty.userType _) => ([], none)
      | _ =>
          ([Diagnostic.error globalId.loc
            ("'" ++ globalId.name ++ "' only permitted on user defined types")],
           some no)
  else
    ([Diagnostic.error globalId.loc
      ("'" ++ globalId.name ++ "' not expected, did you mean 'global'?")],
     some no)

/-- A file-scope function-form using directive, as processed by
`UsingResolver::visit_using` followed by the push of the finished `Using`
into the context (semantic/using.rs `visit_sema_source_unit_part`).
`resolvedTy` is the outcome of `resolve_type` on the directive's type
expression (`resolve_type` is `todo!()` in semantic/context.rs, so the
resolved type is taken as an input); `none` is the `*` form. -/
def resolveUsingDirective (ctx : Context) (no : Nat)
    (globalId : Option Identifier) (resolvedTy : Option Ty)
    (castOk : Ty → Ty → Bool) (entries : List PtUsingFunction)
    (directiveLoc : Loc) : Context :=
  match resolvedTy with
  | none =>
      { ctx with diagnostics := ctx.diagnostics.push (Diagnostic.error
          directiveLoc
          "using must be bound to specific type, '*' cannot be used on file scope") }
  | some t =>
      let libraryTy :=
        match t with
        | Ty.contractTy n => (ctx.contracts.getD n default).is_library
        | _ => false
      if libraryTy then
        { ctx with diagnostics := ctx.diagnostics.push (Diagnostic.error
            directiveLoc "using for library type not permitted") }
      else
        let (diags, res) :=
          resove_functions ctx no none globalId resolvedTy castOk entries [] []
        let gl : List Diagnostic × Option Nat :=
          match globalId with
          | some g => resolve_global ctx no none g resolvedTy
          | none => ([], some no)
        { ctx with
          diagnostics := (ctx.diagnostics.append gl.1).append diags,
          usings := ctx.usings ++
            [{ list := UsingList.functions res, ty := resolvedTy,
               file_no := gl.2 }] }

/-! Contract-base resolver (semantic/contract.rs). -/

/-- The bases of a contract (out-of-range contracts have none). -/
def contractBases (ctx : Context) (n : Nat) : List Base :=
  (ctx.contracts.getD n default).bases

/-- `is_base` (semantic/contract.rs), with explicit fuel: a contract is a
base of a derived contract when they are equal, when it appears in the
derived contract's bases, or when it is a base of one of them. The source
recursion has no fuel; it terminates on the acyclic graphs the resolver
maintains, and `ctx.contracts.length + 1` units of fuel are shown below to
suffice there. -/
def isBaseFuel (ctx : Context) : Nat → Nat → Nat → Bool
| 0, _, _ => false
| fuel + 1, base, derived =>
    let bases := contractBases ctx derived
    if base = derived || bases.any (fun e => e.contract_no = base) then true
    else bases.any (fun parent => isBaseFuel ctx fuel base parent.contract_no)

/-- `is_base(base, derived, ctx)` with sufficient fuel. -/
def is_base (base derived : Nat) (ctx : Context) : Bool :=
  isBaseFuel ctx (ctx.contracts.length + 1) base derived

/-- A base-specifier candidate processed by
`BaseContractResolver::visit_base`: the specifier's location, the base
name's location and display form, and the contract index the name resolved
to. `resolved` is modelled from the spec: `resolve_contract_with_namespace`
bottoms out in the `todo!()` `resolve_namespace`, and on failure the source
returns early, dropping the local diagnostics. -/
structure BaseCand where
  loc : Loc
  nameLoc : Loc
  name : String
  resolved : Option Nat
deriving DecidableEq, Repr

/-- `BaseContractResolver::visit_base` (semantic/contract.rs): reject a base
on a library, a self base, a duplicate base, a cyclic base, a non-interface
base of an interface, and a library base; otherwise record the edge (its
constructor arguments are resolved later). -/
def visit_base (ctx : Context) (contract_no : Nat) (base : BaseCand) :
    Context :=
  let contract := ctx.contracts.getD contract_no default
  let contract_id := contract.id
  let contract_ty := contract.ty
  if contract.is_library then
    { ctx with diagnostics := ctx.diagnostics.push (Diagnostic.error base.loc
        ("library '" ++ contract_id.name ++ "' cannot have a base contract")) }
  else
    match base.resolved with
    | none => ctx
    | some no =>
        if no = contract_no then
          { ctx with diagnostics := ctx.diagnostics.push (Diagnostic.error
              base.nameLoc
              ("contract '" ++ base.name ++
                "' cannot have itself as a base contract")) }
        else if contract.bases.any (fun e => e.contract_no = no) then
          { ctx with diagnostics := ctx.diagnostics.push (Diagnostic.error
              base.nameLoc
              ("contract '" ++ contract_id.name ++ "' duplicate base '" ++
                base.name ++ "'")) }
        else if is_base contract_no no ctx then
          { ctx with diagnostics := ctx.diagnostics.push (Diagnostic.error
              base.nameLoc
              ("base '" ++ base.name ++ "' from contract '" ++
                contract_id.name ++ "' is cyclic")) }
        else if contract.is_interface &&
            !(ctx.contracts.getD no default).is_interface then
          { ctx with diagnostics := ctx.diagnostics.push (Diagnostic.error
              base.nameLoc
              ("interface '" ++ contract_id.name ++ "' cannot have " ++
                (ctx.contracts.getD no default).ty.str ++ " '" ++ base.name ++
                "' as a base")) }
        else if (ctx.contracts.getD no default).is_library then
          { ctx with diagnostics := ctx.diagnostics.push (Diagnostic.error
              base.nameLoc
              ("library '" ++ base.name ++
                "' cannot be used as base contract for " ++ contract_ty.str ++
                " '" ++ contract_id.name ++ "'")) }
        else
          let contract' : Contract :=
            { contract with bases := contract.bases ++
                [{ loc := base.loc, contract_no := no, ctor := none }] }
          { ctx with contracts := ctx.contracts.set contract_no contract' }

/-- The whole base-resolution pass: every contract's base specifiers are
visited in order (`BaseContractResolver` driven over the semantic source
unit). -/
def resolveBases (ctx : Context) : List (Nat × BaseCand) → Context
| [] => ctx
| (cno, b) :: rest => resolveBases (visit_base ctx cno b) rest

/-! Import resolver (semantic/import.rs), rename-list form. -/

/-- `ImportResolver::add_symbol` (semantic/import.rs): add a symbol to the
chosen namespace unless an identical binding is already present. -/
def importAddSymbol (ctx : Context) (no : Nat) (filenameLoc : Loc)
    (function : Bool) (contract_no : Option Nat) (name : String)
    (symbol : Symbol) : Context :=
  let symbols := if function then ctx.function_symbols else ctx.variable_symbols
  if symLookup symbols (no, contract_no, name) ≠ some symbol then
    (ctx.add_symbol no contract_no { name := name, loc := filenameLoc } symbol).1
  else ctx

/-- The collection loop of `visit_import_renames`: look every requested name
up in the target file's variable namespace, then in its function namespace;
the first miss aborts the whole directive. -/
def collectRenames (ctx : Context) (import_file_no : Nat) :
    List (Identifier × Option Identifier) →
    Except Identifier (List (Bool × Identifier × Symbol))
| [] => Except.ok []
| (from_, rename_to) :: rest =>
    let id := rename_to.getD from_
    match symLookup ctx.variable_symbols (import_file_no, none, from_.name) with
    | some symbol =>
        (collectRenames ctx import_file_no rest).map
          (fun tail => (false, id, symbol) :: tail)
    | none =>
        match symLookup ctx.function_symbols
            (import_file_no, none, from_.name) with
        | some symbol =>
            (collectRenames ctx import_file_no rest).map
              (fun tail => (true, id, symbol) :: tail)
        | none => Except.error from_

/-- `ImportResolver::visit_import_renames` (semantic/import.rs): collect
every requested symbol first; only when all are found are they added to the
importing file's namespaces. On a miss, report
`import '<file>' does not export '<name>'` and return the error (`true` in
the result means success). -/
def visit_import_renames (ctx : Context) (no import_file_no : Nat)
    (filenameStr : String) (filenameLoc : Loc)
    (imports : List (Identifier × Option Identifier)) : Context × Bool :=
  match collectRenames ctx import_file_no imports with
  | Except.error from_ =>
      ({ ctx with diagnostics := ctx.diagnostics.push (Diagnostic.error
          from_.loc
          ("import '" ++ filenameStr ++ "' does not export '" ++ from_.name ++
            "'")) }, false)
  | Except.ok symbols =>
      (symbols.foldl
        (fun acc e =>
          importAddSymbol acc no filenameLoc e.1 none e.2.1.name e.2.2)
        ctx, true)

/-! Relations for the inheritance graph (used to state and prove the
acyclicity invariant of the contract-base resolver). -/

/-- One inheritance edge: `p` appears in the bases of `d`
(`d` is the child, `p` the parent). -/
def StepEdge (ctx : Context) (d p : Nat) : Prop :=
  ∃ b ∈ contractBases ctx d, b.contract_no = p

/-- `p` is reachable from `d` going up the inheritance edges: the
reflexive-transitive closure of `StepEdge`. This is the mathematical
content of the source's recursive `is_base(p, d, ctx)`. -/
def Reaches (ctx : Context) : Nat → Nat → Prop :=
  Relation.ReflTransGen (StepEdge ctx)

/-- The inheritance graph has no (nontrivial) cycle. -/
def Acyclic (ctx : Context) : Prop :=
  ∀ d p, StepEdge ctx d p → ¬ Reaches ctx p d

/-- Every recorded base index is in range. -/
def BasesWF (ctx : Context) : Prop :=
  ∀ c ∈ ctx.contracts, ∀ b ∈ c.bases, b.contract_no < ctx.contracts.length

/-- An explicit inheritance path: `StepPath ctx d l b` holds when the node
list `l` leads from `d` up to `b` one edge at a time. -/
def StepPath (ctx : Context) : Nat → List Nat → Nat → Prop
| d, [], b => d = b
| d, p :: rest, b => StepEdge ctx d p ∧ StepPath ctx p rest b

/-- The access-violation errors of `check_mutability` (the `check_level`
calls of the walk), as one list. -/
def mutErrs (func : Function) (events : List AccessEvent) : List Diagnostic :=
  (events.map
    (fun ev => check_level func.mutability (declaredAccess func.mutability) ev)).flatten

/-- The downgrade-suggestion warnings of `check_mutability`. -/
def mutWarns (func : Function) (events : List AccessEvent) : List Diagnostic :=
  let declared := declaredAccess func.mutability
  let required := requiredAccess events
  if func.ty = FunctionTy.function && !func.is_accessor then
    (if required = Access.noAccess then
      match func.mutability with
      | Mutability.payable _ => []
      | Mutability.pure _ => []
      | Mutability.nonpayable _ =>
          [Diagnostic.warning func.loc_prototype
            "function can be declared 'pure'"]
      | m =>
          [Diagnostic.warning func.loc_prototype
            ("function declared '" ++ m.str ++ "' can be declared 'pure'")]
     else []) ++
    (if required = Access.read && declared = Access.write then
      [Diagnostic.warning func.loc_prototype
        "function can be declared 'view'"]
     else [])
  else []

/-! Concrete inputs used by witnesses and counterexamples. -/

/-- A fresh semantic context. -/
def emptyCtx : Context :=
  { contracts := [], functions := [], enums := [], user_types := [],
    usings := [], diagnostics := Diagnostics.new, function_symbols := [],
    variable_symbols := [] }

/-- `n` distinct enum values named by their index. -/
def mkEnumValues (n : Nat) : List Identifier :=
  (List.range n).map (fun i => { loc := Loc.file 0 i (i + 1), name := toString i })

/-- An enum definition with exactly 256 distinct values. -/
def enum256 : EnumDefinition :=
  { loc := Loc.file 0 0 1, name := { loc := Loc.file 0 0 1, name := "Big" },
    values := mkEnumValues 256 }

/-- An enum definition with 257 distinct values. -/
def enum257 : EnumDefinition :=
  { loc := Loc.file 0 0 1, name := { loc := Loc.file 0 0 1, name := "Huge" },
    values := mkEnumValues 257 }

/-- A pure free function `T op T → T` over the user type 0, for operator
bindings. -/
def c6Func (idname : String) : Function :=
  { loc_prototype := Loc.file 0 0 1, id := idname, ty := FunctionTy.function,
    mutability := Mutability.pure Loc.implicit, contract_no := none,
    params := [{ ty := Ty.userType 0 }, { ty := Ty.userType 0 }],
    returns := [{ ty := Ty.userType 0 }], is_accessor := false,
    is_virtual := false }

/-- A context with one user type and two suitable free functions `f`, `g`. -/
def c6Ctx : Context :=
  { emptyCtx with
    user_types := ["T"],
    functions := [c6Func "f", c6Func "g"],
    function_symbols :=
      [((0, none, "f"), Symbol.function [(Loc.file 0 1 2, 0)]),
       ((0, none, "g"), Symbol.function [(Loc.file 0 3 4, 1)])] }

/-- A directive list binding both `f` and `g` to `+` for the same type. -/
def c6Entries : List PtUsingFunction :=
  [{ loc := Loc.file 0 10 11,
     path := { loc := Loc.file 0 10 11, name := "f" },
     oper := some UserDefinedOperator.add },
   { loc := Loc.file 0 12 13,
     path := { loc := Loc.file 0 12 13, name := "g" },
     oper := some UserDefinedOperator.add }]

/-- The trailing `global` identifier of a global using directive. -/
def gGlobal : Identifier := { loc := Loc.file 0 20 21, name := "global" }

/-- `c6Ctx` with an existing binding of `+` over user type 0 to function 0,
recorded by an earlier directive. -/
def c6CtxBound : Context :=
  { c6Ctx with usings :=
      [{ list := UsingList.functions
           [{ loc := Loc.file 0 30 31, function_no := 0,
              oper := some UserDefinedOperator.add }],
         ty := some (Ty.userType 0), file_no := none }] }

/-- A plain public payable function with no accessor or virtual flag. -/
def payableFunc : Function :=
  { loc_prototype := Loc.file 0 0 1, id := "f", ty := FunctionTy.function,
    mutability := Mutability.payable (Loc.file 0 0 1), contract_no := some 0,
    params := [], returns := [], is_accessor := false, is_virtual := false }

/-- Two plain contracts `A`, `B` with no bases, for the base resolver. -/
def c1Ctx : Context :=
  { emptyCtx with contracts :=
      [{ loc := Loc.file 0 0 1, ty := ContractTy.contract (Loc.file 0 0 1),
         id := { loc := Loc.file 0 0 1, name := "A" }, bases := [] },
       { loc := Loc.file 0 2 3, ty := ContractTy.contract (Loc.file 0 2 3),
         id := { loc := Loc.file 0 2 3, name := "B" }, bases := [] }] }

/-- One base specifier: contract 0 derives from contract 1. -/
def c1Cands : List (Nat × BaseCand) :=
  [(0, { loc := Loc.file 0 4 5, nameLoc := Loc.file 0 4 5, name := "B",
         resolved := some 1 })]

/-! Theorems. -/

theorem mem_insOrdered (x a : Diagnostic) (l : List Diagnostic) :
    x ∈ insOrdered a l ↔ x = a ∨ x ∈ l := by
  induction l with
  | nil => simp [insOrdered]
  | cons b rest ih =>
      simp only [insOrdered]
      split
      · simp [List.mem_cons]
      · simp only [List.mem_cons, ih]
        tauto

theorem mem_sortDiags (x : Diagnostic) (l : List Diagnostic) :
    x ∈ sortDiags l ↔ x ∈ l := by
  induction l with
  | nil => simp [sortDiags]
  | cons a rest ih => simp [sortDiags, mem_insOrdered, ih]

theorem mem_dedupAdj (x : Diagnostic) (l : List Diagnostic) :
    x ∈ dedupAdj l ↔ x ∈ l := by
  induction l with
  | nil => simp [dedupAdj]
  | cons a rest ih =>
      cases rest with
      | nil => simp [dedupAdj]
      | cons b rest2 =>
          simp only [dedupAdj] at *
          split
          · next h =>
              subst h
              rw [ih]
              simp [List.mem_cons]
          · simp only [List.mem_cons] at *
            rw [ih]

/-- C10: for every `Diagnostics` collection built from `new()` by any
sequence of `push`, `extend`, `append` and `normalize` operations,
`any_errors()` returns `true` exactly when the collection currently contains
at least one error-level diagnostic. -/
theorem c10_any_errors_iff (d : Diagnostics) (hb : Built d) :
    d.any_errors = true ↔ ∃ x ∈ d.contents, x.level = Level.error := by
  induction hb with
  | new =>
      simp [Diagnostics.new, Diagnostics.any_errors]
  | push d x _ ih =>
      simp only [Diagnostics.push, Diagnostics.any_errors] at *
      by_cases hx : x.level = Level.error
      · rw [if_pos hx]
        exact iff_of_true rfl ⟨x, by simp, hx⟩
      · rw [if_neg hx]
        simp only [List.mem_append, List.mem_singleton]
        constructor
        · intro h
          obtain ⟨y, hy, hl⟩ := ih.mp h
          exact ⟨y, Or.inl hy, hl⟩
        · intro ⟨y, hy, hl⟩
          rcases hy with hy | hy
          · exact ih.mpr ⟨y, hy, hl⟩
          · subst hy; exact absurd hl hx
  | extend d d' _ _ ih ih' =>
      simp only [Diagnostics.extend, Diagnostics.any_errors] at *
      rw [Bool.or_eq_true, ih, ih']
      simp only [List.mem_append]
      constructor
      · rintro (⟨y, hy, hl⟩ | ⟨y, hy, hl⟩)
        exacts [⟨y, Or.inl hy, hl⟩, ⟨y, Or.inr hy, hl⟩]
      · rintro ⟨y, hy | hy, hl⟩
        exacts [Or.inl ⟨y, hy, hl⟩, Or.inr ⟨y, hy, hl⟩]
  | append d v _ ih =>
      simp only [Diagnostics.append, Diagnostics.any_errors] at *
      by_cases h : d.has_error = true
      · rw [if_pos h]
        obtain ⟨y, hy, hl⟩ := ih.mp h
        exact iff_of_true rfl ⟨y, by simp [hy], hl⟩
      · rw [if_neg h, List.any_eq_true]
        simp only [List.mem_append, decide_eq_true_eq]
        constructor
        · intro ⟨y, hy, hl⟩
          exact ⟨y, Or.inr hy, hl⟩
        · intro ⟨y, hy, hl⟩
          rcases hy with hy | hy
          · exact absurd (ih.mpr ⟨y, hy, hl⟩) h
          · exact ⟨y, hy, hl⟩
  | normalize d _ ih =>
      simp only [Diagnostics.normalize, Diagnostics.any_errors] at *
      rw [ih]
      constructor
      · intro ⟨y, hy, hl⟩
        exact ⟨y, (mem_dedupAdj y _).mpr ((mem_sortDiags y _).mpr hy), hl⟩
      · intro ⟨y, hy, hl⟩
        exact ⟨y, (mem_sortDiags y _).mp ((mem_dedupAdj y _).mp hy), hl⟩

theorem c10_any_errors_iff_witness :
    Built (Diagnostics.new.push (Diagnostic.error Loc.implicit "boom")) ∧
    ((Diagnostics.new.push (Diagnostic.error Loc.implicit "boom")).any_errors
      = true ↔
      ∃ x ∈ (Diagnostics.new.push
              (Diagnostic.error Loc.implicit "boom")).contents,
        x.level = Level.error) :=
  ⟨Built.push _ _ Built.new,
   c10_any_errors_iff _ (Built.push _ _ Built.new)⟩

theorem add_symbol_mem (x : Diagnostic) (ctx : Context) (no : Nat)
    (cno : Option Nat) (id : Identifier) (sym : Symbol)
    (h : x ∈ ctx.diagnostics.contents) :
    x ∈ (ctx.add_symbol no cno id sym).1.diagnostics.contents := by
  unfold Context.add_symbol
  cases sym
  case function entries => exact h
  case event entries => exact h
  all_goals
    rcases hl : symLookup ctx.variable_symbols (no, cno, id.name) with _ | existing
  all_goals simp only [hl]
  all_goals try exact h
  all_goals split
  all_goals try exact h
  all_goals simp [Diagnostics.push]
  all_goals exact Or.inl h

/-- C4 (amended): the type-declaration resolver records an error diagnostic
when the enum has no values, and records the 256-limit error — whose message
names the enum and its value count — when the enum has more than 256 values
(257 or more; an enum with exactly 256 values is accepted). -/
theorem c4_enum_size_errors (ctx : Context) (no : Nat) (d : EnumDefinition)
    (contract_no : Option Nat) :
    (d.values = [] →
      Diagnostic.error d.name.loc ("enum '" ++ d.name.name ++ "' has no fields")
        ∈ (enum_decl ctx no d contract_no).1.diagnostics.contents) ∧
    (256 < d.values.length →
      Diagnostic.error d.name.loc
        ("enum '" ++ d.name.name ++ "' has " ++ toString d.values.length ++
          " fields, which is more than the 256 limit")
        ∈ (enum_decl ctx no d contract_no).1.diagnostics.contents) := by
  constructor
  · intro h
    unfold enum_decl
    simp only [h, if_pos rfl, reduceIte]
    apply add_symbol_mem
    simp [Diagnostics.append]
  · intro h
    have hne : ¬ d.values = [] := by
      intro he
      rw [he] at h
      simp at h
    unfold enum_decl
    simp only [if_neg hne, if_pos h, reduceIte]
    apply add_symbol_mem
    simp [Diagnostics.append]

theorem c4_enum_size_errors_witness :
    ([] : List Identifier) = [] ∧
    Diagnostic.error (Loc.file 0 0 1) "enum 'E' has no fields" ∈
      (enum_decl emptyCtx 0
        { loc := Loc.file 0 0 1,
          name := { loc := Loc.file 0 0 1, name := "E" }, values := [] }
        none).1.diagnostics.contents ∧
    256 < enum257.values.length ∧
    Diagnostic.error enum257.name.loc
      ("enum 'Huge' has " ++ toString enum257.values.length ++
        " fields, which is more than the 256 limit") ∈
      (enum_decl emptyCtx 0 enum257 none).1.diagnostics.contents := by
  have h257 : 256 < enum257.values.length := by
    simp [enum257, mkEnumValues]
  refine ⟨rfl, ?_, h257, ?_⟩
  · exact (c4_enum_size_errors emptyCtx 0
      { loc := Loc.file 0 0 1,
        name := { loc := Loc.file 0 0 1, name := "E" }, values := [] }
      none).1 rfl
  · exact (c4_enum_size_errors emptyCtx 0 enum257 none).2 h257

set_option maxRecDepth 100000 in
set_option maxHeartbeats 4000000 in
/-- C4 (counterexample): an enum with exactly 256 distinct values is
processed without any diagnostic at all — in particular no error — although
the claim requires an error for enums with 256 or more values. -/
theorem c4_enum256_counterexample :
    enum256.values.length = 256 ∧
    (enum_decl emptyCtx 0 enum256 none).1.diagnostics.contents = [] := by
  constructor
  · simp [enum256, mkEnumValues]
  · rfl

theorem foldl_append_flatten {α β : Type} (f : α → List β) :
    ∀ (l : List α) (init : List β),
      l.foldl (fun acc a => acc ++ f a) init = init ++ (l.map f).flatten := by
  intro l
  induction l with
  | nil => intro init; simp
  | cons a rest ih =>
      intro init
      simp only [List.foldl_cons, List.map_cons, List.flatten_cons]
      rw [ih, List.append_assoc]

theorem rank_increase_to (a b : Access) :
    (a.increase_to b).rank = max a.rank b.rank := by
  cases a <;> cases b <;> rfl

theorem lt_foldl_required (declared : Access) :
    ∀ (events : List AccessEvent) (init : Access),
      declared.lt (events.foldl (fun a ev => a.increase_to ev.desired) init) =
        true ↔
      declared.lt init = true ∨
        ∃ ev ∈ events, declared.lt ev.desired = true := by
  intro events
  induction events with
  | nil => intro init; simp
  | cons ev rest ih =>
      intro init
      simp only [List.foldl_cons]
      rw [ih]
      have hsplit : declared.lt (init.increase_to ev.desired) = true ↔
          declared.lt init = true ∨ declared.lt ev.desired = true := by
        simp [Access.lt, rank_increase_to, lt_max_iff]
      rw [hsplit]
      simp only [List.mem_cons]
      constructor
      · rintro ((h | h) | h)
        · exact Or.inl h
        · exact Or.inr ⟨ev, Or.inl rfl, h⟩
        · obtain ⟨e, he, hl⟩ := h
          exact Or.inr ⟨e, Or.inr he, hl⟩
      · rintro (h | ⟨e, he | he, hl⟩)
        · exact Or.inl (Or.inl h)
        · subst he
          exact Or.inl (Or.inr hl)
        · exact Or.inr ⟨e, he, hl⟩

theorem lt_requiredAccess_iff (declared : Access) (events : List AccessEvent) :
    declared.lt (requiredAccess events) = true ↔
      ∃ ev ∈ events, declared.lt ev.desired = true := by
  unfold requiredAccess
  rw [lt_foldl_required]
  constructor
  · rintro (h | h)
    · exact absurd (by simpa [Access.lt, Access.rank] using h)
        (Nat.not_lt_zero declared.rank)
    · exact h
  · exact Or.inr

theorem check_level_level (mutability : Mutability) (declared : Access)
    (ev : AccessEvent) (d : Diagnostic)
    (h : d ∈ check_level mutability declared ev) : d.level = Level.error := by
  unfold check_level at h
  split at h
  · simp at h
  · split at h <;> split at h <;>
      simp_all [Diagnostic.build, Diagnostic.error]

theorem check_level_nonempty (mutability : Mutability) (declared : Access)
    (ev : AccessEvent) :
    check_level mutability declared ev ≠ [] ↔ declared.lt ev.desired = true := by
  unfold check_level
  split
  · next h => simp_all
  · next h =>
      simp only [Bool.not_eq_true] at h
      constructor
      · intro _
        cases hd : declared.lt ev.desired
        · rw [hd] at h; simp at h
        · rfl
      · intro _
        rcases hm : ev.modifierLoc with _ | ml <;>
          split <;> simp [hm]

/-- C5 (amended): for every non-virtual function checked by the mutability
checker, an error is emitted exactly when the access level required by the
recorded bumps exceeds the declared level; and a downgrade-suggestion
warning is emitted exactly when the function is a plain non-accessor
function and either nothing was required while `view` or nonpayable was
declared, or only reads were required while nonpayable was declared — in
particular, a payable function never receives a downgrade suggestion. -/
theorem c5_mutability_check (func : Function) (events : List AccessEvent)
    (hv : func.is_virtual = false) :
    ((∃ d ∈ check_mutability func events, d.level = Level.error) ↔
      (declaredAccess func.mutability).lt (requiredAccess events) = true) ∧
    ((∃ d ∈ check_mutability func events, d.level = Level.warning) ↔
      (func.ty = FunctionTy.function ∧ func.is_accessor = false ∧
        ((requiredAccess events = Access.noAccess ∧
            (declaredAccess func.mutability = Access.read ∨
             declaredAccess func.mutability = Access.write)) ∨
         (requiredAccess events = Access.read ∧
            declaredAccess func.mutability = Access.write)))) := by
  have hch : check_mutability func events =
      mutErrs func events ++ mutWarns func events := by
    unfold check_mutability mutErrs mutWarns
    rw [hv]
    simp only [Bool.false_eq_true, if_false]
    rw [foldl_append_flatten (fun ev =>
      check_level func.mutability (declaredAccess func.mutability) ev) events []]
    simp only [List.nil_append]
  have herr_mem : ∀ d ∈ mutErrs func events, d.level = Level.error := by
    intro d hd
    unfold mutErrs at hd
    simp only [List.mem_flatten, List.mem_map] at hd
    obtain ⟨l, ⟨ev, _, rfl⟩, hdl⟩ := hd
    exact check_level_level _ _ _ _ hdl
  have hwarn_mem : ∀ d ∈ mutWarns func events, d.level = Level.warning := by
    intro d hd
    unfold mutWarns at hd
    simp only at hd
    split at hd
    · simp only [List.mem_append] at hd
      rcases hd with hd | hd
      · split at hd
        · split at hd <;> simp_all [Diagnostic.warning]
        · simp at hd
      · split at hd <;> simp_all [Diagnostic.warning]
    · simp at hd
  rw [hch]
  constructor
  · constructor
    · rintro ⟨d, hd, hl⟩
      simp only [List.mem_append] at hd
      rcases hd with hd | hd
      · unfold mutErrs at hd
        simp only [List.mem_flatten, List.mem_map] at hd
        obtain ⟨l, ⟨ev, hev, rfl⟩, hdl⟩ := hd
        rw [lt_requiredAccess_iff]
        refine ⟨ev, hev, ?_⟩
        rw [← (check_level_nonempty func.mutability
          (declaredAccess func.mutability) ev)]
        intro hnil
        rw [hnil] at hdl
        simp at hdl
      · rw [hwarn_mem d hd] at hl
        cases hl
    · intro h
      rw [lt_requiredAccess_iff] at h
      obtain ⟨ev, hev, hlt⟩ := h
      have hne := (check_level_nonempty func.mutability
        (declaredAccess func.mutability) ev).mpr hlt
      obtain ⟨d, hd⟩ := List.exists_mem_of_ne_nil _ hne
      refine ⟨d, ?_, check_level_level _ _ _ _ hd⟩
      simp only [List.mem_append]
      refine Or.inl ?_
      unfold mutErrs
      simp only [List.mem_flatten, List.mem_map]
      exact ⟨_, ⟨ev, hev, rfl⟩, hd⟩
  · have key : (∃ d ∈ mutErrs func events ++ mutWarns func events,
        d.level = Level.warning) ↔ mutWarns func events ≠ [] := by
      constructor
      · rintro ⟨d, hd, hl⟩
        simp only [List.mem_append] at hd
        rcases hd with hd | hd
        · rw [herr_mem d hd] at hl
          cases hl
        · intro hnil
          rw [hnil] at hd
          simp at hd
      · intro h
        obtain ⟨d, hd⟩ := List.exists_mem_of_ne_nil _ h
        exact ⟨d, by simp [List.mem_append, hd], hwarn_mem d hd⟩
    rw [key]
    unfold mutWarns
    simp only []
    by_cases hfty : func.ty = FunctionTy.function
    case neg =>
      rw [if_neg (by simp [hfty])]
      simp [hfty]
    case pos =>
      by_cases hacc : func.is_accessor = true
      case pos =>
        rw [if_neg (by simp [hfty, hacc])]
        simp [hacc]
      case neg =>
        rw [Bool.not_eq_true] at hacc
        rw [if_pos (by simp [hfty, hacc])]
        simp only [hfty, hacc, true_and]
        rcases hm : func.mutability with l | l | l | l <;>
          rcases hr : requiredAccess events with _ | _ | _ | _ <;>
            simp [declaredAccess, Diagnostic.warning]
  
theorem c5_mutability_check_witness :
    payableFunc.is_virtual = false ∧
    ((∃ d ∈ check_mutability payableFunc [], d.level = Level.error) ↔
      (declaredAccess payableFunc.mutability).lt (requiredAccess []) = true) ∧
    ((∃ d ∈ check_mutability payableFunc [], d.level = Level.warning) ↔
      (payableFunc.ty = FunctionTy.function ∧
        payableFunc.is_accessor = false ∧
        ((requiredAccess [] = Access.noAccess ∧
            (declaredAccess payableFunc.mutability = Access.read ∨
             declaredAccess payableFunc.mutability = Access.write)) ∨
         (requiredAccess [] = Access.read ∧
            declaredAccess payableFunc.mutability = Access.write)))) :=
  ⟨rfl, c5_mutability_check payableFunc [] rfl⟩

/-- C5 (counterexample): an empty-bodied payable plain function requires
strictly less than its declared level and is neither an accessor nor a
constructor, yet the checker emits no downgrade-suggestion warning (and no
diagnostic at all), contrary to the claim. -/
theorem c5_payable_no_warning_counterexample :
    (requiredAccess []).lt (declaredAccess payableFunc.mutability) = true ∧
    payableFunc.ty = FunctionTy.function ∧
    payableFunc.is_accessor = false ∧
    payableFunc.is_virtual = false ∧
    check_mutability payableFunc [] = [] := by
  refine ⟨by decide, rfl, rfl, rfl, by decide⟩

theorem collectRenames_error (ctx : Context) (ifn : Nat) :
    ∀ (imports : List (Identifier × Option Identifier)),
    (∃ p ∈ imports,
      symLookup ctx.variable_symbols (ifn, none, p.1.name) = none ∧
      symLookup ctx.function_symbols (ifn, none, p.1.name) = none) →
    ∃ missing, collectRenames ctx ifn imports = Except.error missing ∧
      symLookup ctx.variable_symbols (ifn, none, missing.name) = none ∧
      symLookup ctx.function_symbols (ifn, none, missing.name) = none ∧
      missing ∈ imports.map (fun p => p.1) := by
  intro imports
  induction imports with
  | nil =>
      rintro ⟨p, hp, _⟩
      simp at hp
  | cons hd rest ih =>
      rintro ⟨p, hp, hv, hf⟩
      rcases List.mem_cons.mp hp with rfl | hp'
      · refine ⟨p.1, ?_, hv, hf, by simp⟩
        unfold collectRenames
        simp only [hv, hf]
      · cases hv1 : symLookup ctx.variable_symbols (ifn, none, hd.1.name) with
        | some s =>
            obtain ⟨m, hm, h2, h3, h4⟩ := ih ⟨p, hp', hv, hf⟩
            refine ⟨m, ?_, h2, h3, by simp [h4]⟩
            unfold collectRenames
            simp only [hv1, hm]
            rfl
        | none =>
            cases hf1 : symLookup ctx.function_symbols (ifn, none, hd.1.name) with
            | some s =>
                obtain ⟨m, hm, h2, h3, h4⟩ := ih ⟨p, hp', hv, hf⟩
                refine ⟨m, ?_, h2, h3, by simp [h4]⟩
                unfold collectRenames
                simp only [hv1, hf1, hm]
                rfl
            | none =>
                refine ⟨hd.1, ?_, hv1, hf1, by simp⟩
                unfold collectRenames
                simp only [hv1, hf1]

/-- C9: symbol insertion for a rename-list import is all-or-nothing: when
some listed name is missing from the target file's file-scope variable and
function namespaces, the directive fails, an error diagnostic naming the
missing name and the imported file is recorded, and neither namespace of the
importing file gains any entry — not even for names listed before the
missing one. -/
theorem c9_import_renames_atomic (ctx : Context) (no import_file_no : Nat)
    (filenameStr : String) (filenameLoc : Loc)
    (imports : List (Identifier × Option Identifier))
    (h : ∃ p ∈ imports,
      symLookup ctx.variable_symbols (import_file_no, none, p.1.name) = none ∧
      symLookup ctx.function_symbols (import_file_no, none, p.1.name) = none) :
    (visit_import_renames ctx no import_file_no filenameStr filenameLoc
      imports).2 = false ∧
    (visit_import_renames ctx no import_file_no filenameStr filenameLoc
      imports).1.variable_symbols = ctx.variable_symbols ∧
    (visit_import_renames ctx no import_file_no filenameStr filenameLoc
      imports).1.function_symbols = ctx.function_symbols ∧
    ∃ missing, missing ∈ imports.map (fun p => p.1) ∧
      symLookup ctx.variable_symbols (import_file_no, none, missing.name)
        = none ∧
      symLookup ctx.function_symbols (import_file_no, none, missing.name)
        = none ∧
      (visit_import_renames ctx no import_file_no filenameStr filenameLoc
        imports).1.diagnostics =
        ctx.diagnostics.push (Diagnostic.error missing.loc
          ("import '" ++ filenameStr ++ "' does not export '" ++ missing.name
            ++ "'")) := by
  obtain ⟨missing, hcoll, hv, hf, hmem⟩ :=
    collectRenames_error ctx import_file_no imports h
  unfold visit_import_renames
  rw [hcoll]
  exact ⟨rfl, rfl, rfl, missing, hmem, hv, hf, rfl⟩

theorem c9_import_renames_atomic_witness :
    (visit_import_renames
      { emptyCtx with variable_symbols :=
          [((1, none, "a"), Symbol.var Loc.implicit none 0)] }
      0 1 "lib.sol" (Loc.file 0 0 1)
      [({ loc := Loc.file 0 5 6, name := "a" }, none),
       ({ loc := Loc.file 0 7 8, name := "b" }, none)]).2 = false ∧
    (visit_import_renames
      { emptyCtx with variable_symbols :=
          [((1, none, "a"), Symbol.var Loc.implicit none 0)] }
      0 1 "lib.sol" (Loc.file 0 0 1)
      [({ loc := Loc.file 0 5 6, name := "a" }, none),
       ({ loc := Loc.file 0 7 8, name := "b" }, none)]).1.variable_symbols =
      [((1, none, "a"), Symbol.var Loc.implicit none 0)] := by
  have h := c9_import_renames_atomic
    { emptyCtx with variable_symbols :=
        [((1, none, "a"), Symbol.var Loc.implicit none 0)] }
    0 1 "lib.sol" (Loc.file 0 0 1)
    [({ loc := Loc.file 0 5 6, name := "a" }, none),
     ({ loc := Loc.file 0 7 8, name := "b" }, none)]
    ⟨({ loc := Loc.file 0 7 8, name := "b" }, none), by simp,
      by decide, by decide⟩
  exact ⟨h.1, h.2.1⟩

theorem resoveOperChecked_res (ctx : Context) (u : PtUsingFunction)
    (loc : Loc) (fno : Nat) (func : Function) (oper : UserDefinedOperator)
    (t : Ty) (diags : List Diagnostic) (res : List UsingFunction) :
    (resoveOperChecked ctx u loc fno func oper t diags res).resOf = res ∨
    ∃ uf', (resoveOperChecked ctx u loc fno func oper t diags res).resOf =
        res ++ [uf'] ∧
      ∀ o, uf'.oper = some o →
        user_defined_operator_binding t o ctx = none := by
  unfold resoveOperChecked
  by_cases h1 : (func.params.length ≠ oper.args ||
      func.params.any (fun p => p.ty ≠ t)) = true
  · rw [if_pos h1]
    exact Or.inl rfl
  · rw [if_neg h1]
    by_cases h2 : (oper.is_comparison &&
        !(func.returns.length = 1 &&
          (func.returns.getD 0 default).ty = Ty.bool)) = true
    · rw [if_pos h2]
      exact Or.inl rfl
    · rw [if_neg h2]
      by_cases h3 : (!oper.is_comparison &&
          !(func.returns.length = 1 &&
            (func.returns.getD 0 default).ty = t)) = true
      · rw [if_pos h3]
        exact Or.inl rfl
      · rw [if_neg h3]
        by_cases h4 : (!func.mutability.isPure) = true
        · rw [if_pos h4]
          exact Or.inl rfl
        · rw [if_neg h4]
          rcases hb : user_defined_operator_binding t oper ctx with _ | ex <;>
            simp only [hb]
          · refine Or.inr ⟨_, rfl, ?_⟩
            intro o ho
            have ho' : some oper = some o := ho
            cases ho'
            exact hb
          · exact Or.inl rfl

theorem resoveOne_res (ctx : Context) (no : Nat) (cno : Option Nat)
    (ug : Option Identifier) (t : Ty) (castOk : Ty → Ty → Bool)
    (u : PtUsingFunction) (d : List Diagnostic) (r : List UsingFunction) :
    (resoveOne ctx no cno ug (some t) castOk u d r).resOf = r ∨
    ∃ uf', (resoveOne ctx no cno ug (some t) castOk u d r).resOf =
        r ++ [uf'] ∧
      ∀ o, uf'.oper = some o →
        user_defined_operator_binding t o ctx = none := by
  unfold resoveOne
  dsimp only
  rcases h1 : ctx.resolve_function_with_namespace no cno u.path with ds | list <;>
    simp only [h1]
  · exact Or.inl rfl
  · by_cases h2 : 1 < list.length
    · rw [if_pos h2]
      exact Or.inl rfl
    · rw [if_neg h2]
      rcases h3 : list.head? with _ | ⟨loc, fno⟩ <;> simp only [h3]
      · exact Or.inl rfl
      · by_cases h4 : (match (ctx.functions.getD fno default).contract_no with
            | some cn => !(ctx.contracts.getD cn default).is_library
            | none => false) = true
        · rw [if_pos h4]
          exact Or.inl rfl
        · rw [if_neg h4]
          by_cases h5 : (ctx.functions.getD fno default).params = []
          · rw [if_pos h5]
            exact Or.inl rfl
          · rw [if_neg h5]
            rcases h6 : u.oper with _ | oper0 <;> simp only [h6]
            · -- non-operator entry
              by_cases h7 : (!castOk t
                  ((ctx.functions.getD fno default).params.getD 0
                    default).ty) = true
              · rw [if_pos h7]
                exact Or.inl rfl
              · rw [if_neg h7]
                refine Or.inr ⟨_, rfl, ?_⟩
                intro o ho
                have ho' : (none : Option UserDefinedOperator) = some o := ho
                cases ho'
            · -- operator entry
              by_cases h7 : (cno.isSome || ug.isNone ||
                  (some t).isNone) = true
              · rw [if_pos h7]
                exact Or.inl rfl
              · rw [if_neg h7]
                simp only [Option.getD_some]
                by_cases h8 : t.isUserType = true
                · rw [if_neg (by simp [h8])]
                  by_cases h9 : (oper0 = UserDefinedOperator.subtract ||
                      oper0 = UserDefinedOperator.negate) = true
                  · rw [if_pos h9]
                    rcases hpl : (ctx.functions.getD fno default).params.length
                      with _ | n
                    · simp only [hpl]
                      exact Or.inl rfl
                    · rcases n with _ | n'
                      · simp only [hpl]
                        exact resoveOperChecked_res ctx u loc fno _ _ t d r
                      · rcases n' with _ | n''
                        · simp only [hpl]
                          exact resoveOperChecked_res ctx u loc fno _ _ t d r
                        · simp only [hpl]
                          exact Or.inl rfl
                  · rw [if_neg h9]
                    exact resoveOperChecked_res ctx u loc fno _ _ t d r
                · rw [if_pos (by simp [h8])]
                  exact Or.inl rfl

theorem resove_functions_no_rebind (ctx : Context) (no : Nat) (g : Identifier)
    (t : Ty) (castOk : Ty → Ty → Bool) :
    ∀ (entries : List PtUsingFunction) (d0 : List Diagnostic)
      (r0 : List UsingFunction) (uf : UsingFunction),
      uf ∈ (resove_functions ctx no none (some g) (some t) castOk entries
        d0 r0).2 →
      uf ∈ r0 ∨ ∀ o, uf.oper = some o →
        user_defined_operator_binding t o ctx = none := by
  intro entries
  induction entries with
  | nil =>
      intro d0 r0 uf hmem
      exact Or.inl hmem
  | cons u rest ih =>
      intro d0 r0 uf hmem
      rw [resove_functions] at hmem
      have hres0 := resoveOne_res ctx no none (some g) t castOk u d0 r0
      rcases hstep : resoveOne ctx no none (some g) (some t) castOk u d0 r0
        with ⟨d', r'⟩ | ⟨d', r'⟩ <;>
        rw [hstep] at hmem hres0 <;>
        simp only [LoopStep.resOf] at hres0
      · rcases ih _ _ _ hmem with hin | hp
        · rcases hres0 with h | ⟨uf', h, hg⟩
          · exact Or.inl (h ▸ hin)
          · rw [h] at hin
            rcases List.mem_append.mp hin with hin | hin
            · exact Or.inl hin
            · rw [List.mem_singleton.mp hin]
              exact Or.inr hg
        · exact Or.inr hp
      · rcases hres0 with h | ⟨uf', h, hg⟩
        · exact Or.inl (h ▸ hmem)
        · rw [h] at hmem
          rcases List.mem_append.mp hmem with hin | hin
          · exact Or.inl hin
          · rw [List.mem_singleton.mp hin]
            exact Or.inr hg

/-- C6 (amended): re-binding a `(user type, operator)` pair that an earlier
directive already bound is rejected — an error diagnostic when the existing
binding names a different function and a warning when it names the same one,
and in either case the new binding is not added; consequently a directive
never adds a binding for a pair that was already in scope before it. Two
bindings for the same pair can however both enter scope through one
directive (see the counterexample). -/
theorem c6_operator_rebinding (ctx : Context) (no : Nat) (g : Identifier)
    (k : Nat) (castOk : Ty → Ty → Bool) :
    (∀ (entries : List PtUsingFunction) (uf : UsingFunction)
        (o : UserDefinedOperator),
      uf ∈ (resove_functions ctx no none (some g) (some (Ty.userType k))
        castOk entries [] []).2 →
      uf.oper = some o →
      user_defined_operator_binding (Ty.userType k) o ctx = none) ∧
    (∀ (u : PtUsingFunction) (oper0 : UserDefinedOperator) (l0 : Loc)
        (fno : Nat) (existing : UsingFunction),
      u.oper = some oper0 →
      oper0 ≠ UserDefinedOperator.subtract →
      oper0 ≠ UserDefinedOperator.negate →
      ctx.resolve_function_with_namespace no none u.path =
        Except.ok [(l0, fno)] →
      (ctx.functions.getD fno default).contract_no = none →
      (ctx.functions.getD fno default).params.length = oper0.args →
      (∀ p ∈ (ctx.functions.getD fno default).params, p.ty = Ty.userType k) →
      (oper0.is_comparison = true →
        (ctx.functions.getD fno default).returns.length = 1 ∧
        ((ctx.functions.getD fno default).returns.getD 0 default).ty =
          Ty.bool) →
      (oper0.is_comparison = false →
        (ctx.functions.getD fno default).returns.length = 1 ∧
        ((ctx.functions.getD fno default).returns.getD 0 default).ty =
          Ty.userType k) →
      (∃ l, (ctx.functions.getD fno default).mutability = Mutability.pure l) →
      user_defined_operator_binding (Ty.userType k) oper0 ctx =
        some existing →
      resove_functions ctx no none (some g) (some (Ty.userType k)) castOk
        [u] [] [] =
        ([if existing.function_no ≠ fno then
            operRedefDiag u.loc oper0 existing ctx
          else operRedefSameDiag u.loc oper0 existing ctx], [])) := by
  constructor
  · intro entries uf o hmem ho
    rcases resove_functions_no_rebind ctx no g (Ty.userType k) castOk entries
      [] [] uf hmem with hin | hp
    · simp at hin
    · exact hp o ho
  · intro u oper0 l0 fno existing hop hnsub hnneg hres hcn hlen htys hcmp
      hncmp hpure hbind
    have hargs1 : 1 ≤ oper0.args := by
      cases oper0 <;> simp [UserDefinedOperator.args]
    have hpne : ¬ (ctx.functions.getD fno default).params = [] := by
      intro hnil
      rw [hnil] at hlen
      simp at hlen
      omega
    have hchecked : resoveOperChecked ctx u l0 fno
        (ctx.functions.getD fno default) oper0 (Ty.userType k) [] [] =
        LoopStep.cont
          [if existing.function_no ≠ fno then
            operRedefDiag u.loc oper0 existing ctx
           else operRedefSameDiag u.loc oper0 existing ctx] [] := by
      unfold resoveOperChecked
      rw [if_neg (by
        simp only [hlen, Bool.or_eq_true, not_or, Bool.not_eq_true,
          List.any_eq_false, decide_eq_true_eq]
        refine ⟨by simp, ?_⟩
        intro p hp
        simp [htys p hp])]
      have hretOk : (oper0.is_comparison &&
            !((ctx.functions.getD fno default).returns.length = 1 &&
              ((ctx.functions.getD fno default).returns.getD 0 default).ty =
                Ty.bool)) = false ∧
          (!oper0.is_comparison &&
            !((ctx.functions.getD fno default).returns.length = 1 &&
              ((ctx.functions.getD fno default).returns.getD 0 default).ty =
                Ty.userType k)) = false := by
        by_cases hc : oper0.is_comparison = true
        · obtain ⟨hl1, hl2⟩ := hcmp hc
          constructor <;> simp only [hc, hl1, hl2] <;> simp
        · rw [Bool.not_eq_true] at hc
          obtain ⟨hl1, hl2⟩ := hncmp hc
          constructor <;> simp only [hc, hl1, hl2] <;> simp
      rw [if_neg (by simp only [hretOk.1]; simp)]
      rw [if_neg (by simp only [hretOk.2]; simp)]
      rw [if_neg (by
        obtain ⟨l, hl⟩ := hpure
        simp only [hl]
        simp [Mutability.isPure])]
      rw [hbind]
      rfl
    have hstep : resoveOne ctx no none (some g) (some (Ty.userType k)) castOk
        u [] [] = LoopStep.cont
          [if existing.function_no ≠ fno then
            operRedefDiag u.loc oper0 existing ctx
           else operRedefSameDiag u.loc oper0 existing ctx] [] := by
      unfold resoveOne
      dsimp only
      simp only [hres]
      rw [if_neg (by simp)]
      simp only [List.head?_cons, hop, hcn]
      rw [if_neg (by simp), if_neg hpne]
      rw [if_neg (by simp)]
      rw [if_neg (by simp [Ty.isUserType])]
      rw [if_neg (by simp [hnsub, hnneg])]
      exact hchecked
    rw [resove_functions, hstep]
    rfl

theorem c6_operator_rebinding_witness :
    resove_functions c6CtxBound 0 none (some gGlobal) (some (Ty.userType 0))
      (fun _ _ => true)
      [{ loc := Loc.file 0 12 13,
         path := { loc := Loc.file 0 12 13, name := "g" },
         oper := some UserDefinedOperator.add }] [] [] =
      ([operRedefDiag (Loc.file 0 12 13) UserDefinedOperator.add
          { loc := Loc.file 0 30 31, function_no := 0,
            oper := some UserDefinedOperator.add } c6CtxBound], []) := by
  have h := (c6_operator_rebinding c6CtxBound 0 gGlobal 0
    (fun _ _ => true)).2
    { loc := Loc.file 0 12 13,
      path := { loc := Loc.file 0 12 13, name := "g" },
      oper := some UserDefinedOperator.add }
    UserDefinedOperator.add (Loc.file 0 3 4) 1
    { loc := Loc.file 0 30 31, function_no := 0,
      oper := some UserDefinedOperator.add }
    rfl (by decide) (by decide) rfl (by decide) (by decide)
    (by decide) (by decide) (by decide) ⟨Loc.implicit, by decide⟩ rfl
  simpa using h

/-- C6 (counterexample): one global directive that binds two different
functions to the same `(user type, operator)` pair is accepted without any
diagnostic, and both bindings end up in scope — refuting the claim that a
binding over an already-bound pair is rejected and that at most one binding
per pair is ever in scope. -/
theorem c6_two_bindings_counterexample :
    (resolveUsingDirective c6Ctx 0 (some gGlobal) (some (Ty.userType 0))
      (fun _ _ => true) c6Entries (Loc.file 0 0 1)).usings =
      [{ list := UsingList.functions
           [{ loc := Loc.file 0 10 11, function_no := 0,
              oper := some UserDefinedOperator.add },
            { loc := Loc.file 0 12 13, function_no := 1,
              oper := some UserDefinedOperator.add }],
         ty := some (Ty.userType 0), file_no := none }] ∧
    (resolveUsingDirective c6Ctx 0 (some gGlobal) (some (Ty.userType 0))
      (fun _ _ => true) c6Entries (Loc.file 0 0 1)).diagnostics.contents =
      [] := by
  exact ⟨by decide, by decide⟩

/-- C2: for every outcome of the generated grammar parser and every file
number, `parse` returns either a parse tree or an `Err` carrying a non-empty
diagnostic list, namely the recovered errors followed by the terminal error,
each converted to an error-level `ParserError`-kind diagnostic; being a total
function it cannot panic. -/
theorem c2_parse_total
    (g : List ErrorRecovery × Except ParseError SourceUnitStub) (no : Nat) :
    (∃ su, parse g no = Except.ok su) ∨
    (∃ err ds, g.2 = Except.error err ∧
      parse g no = Except.error ds ∧
      ds = (g.1.map (fun e => Diagnostic.fromParseError e.error no)) ++
        [Diagnostic.fromParseError err no] ∧
      ds ≠ [] ∧
      ∀ d ∈ ds, d.level = Level.error ∧ d.ty = ErrorType.parserError) := by
  obtain ⟨errors, result⟩ := g
  cases result with
  | ok su => exact Or.inl ⟨su, rfl⟩
  | error err =>
      refine Or.inr ⟨err, _, rfl, rfl, rfl, by simp, ?_⟩
      intro d hd
      simp only [List.mem_append, List.mem_map, List.mem_singleton] at hd
      have conv : ∀ e : ParseError,
          (Diagnostic.fromParseError e no).level = Level.error ∧
          (Diagnostic.fromParseError e no).ty = ErrorType.parserError := by
        intro e
        cases e <;> simp [Diagnostic.fromParseError, Diagnostic.build]
      rcases hd with ⟨e, _, rfl⟩ | rfl
      · exact conv e.error
      · exact conv err

/-- C8: the lexer iterator never yields an `Err` item; whenever the
underlying tokenizer produced a lexical error, the corresponding output item
is `Ok((start, Token::Error, end))` over the same byte span. -/
theorem c8_lexer_never_errors
    (items : List (Except LexicalError TokenKind × Nat × Nat)) (i : Nat)
    (err : LexicalError) (s e : Nat)
    (h : items.get? i = some (Except.error err, s, e)) :
    (Lexer.run items).get? i = some (Except.ok (s, TokenKind.error, e)) ∧
    ∀ x ∈ Lexer.run items, ∃ p, x = Except.ok p := by
  constructor
  · rw [Lexer.run, List.get?_map, h]
    rfl
  · intro x hx
    rw [Lexer.run, List.mem_map] at hx
    obtain ⟨⟨t, s', e'⟩, _, rfl⟩ := hx
    cases t with
    | ok tk => exact ⟨(s', tk, e'), rfl⟩
    | error _ => exact ⟨(s', TokenKind.error, e'), rfl⟩

/-- C3: for every non-relative import request with a parent file, `resolve`
threads the state of the candidate walk and returns `Ok` exactly when
exactly one candidate matched after applying the mappings and walking the
unnamed base paths; with zero matches it returns the `file not found` error
naming the requested path, and with several matches it returns the error
listing every candidate's full path. -/
theorem c3_resolve_by_candidates (r : FileResolver) (fs : Fs)
    (p : ResolvedFile) (filename : String)
    (h1 : strStartsWith filename "./" = false)
    (h2 : strStartsWith filename "../" = false) :
    (r.resolve fs (some p) filename).1 = (r.resolveCandidates fs filename).1 ∧
    ((∃ f, (r.resolve fs (some p) filename).2 = Except.ok f) ↔
      (r.resolveCandidates fs filename).2.length = 1) ∧
    (∀ f, (r.resolveCandidates fs filename).2 = [f] →
      (r.resolve fs (some p) filename).2 = Except.ok f) ∧
    ((r.resolveCandidates fs filename).2 = [] →
      (r.resolve fs (some p) filename).2 =
        Except.error (notFoundMsg filename)) ∧
    (2 ≤ (r.resolveCandidates fs filename).2.length →
      (r.resolve fs (some p) filename).2 =
        Except.error (multiMsg filename (r.resolveCandidates fs filename).2)) := by
  have hres : r.resolve fs (some p) filename =
      (match h : (r.resolveCandidates fs filename).2 with
       | [] => ((r.resolveCandidates fs filename).1,
                Except.error (notFoundMsg filename))
       | [f] => ((r.resolveCandidates fs filename).1, Except.ok f)
       | _ => ((r.resolveCandidates fs filename).1,
               Except.error (multiMsg filename
                 (r.resolveCandidates fs filename).2))) := by
    unfold FileResolver.resolve
    rw [h1, h2]
    simp only [Bool.or_self, Bool.false_eq_true, if_false]
    rcases hc : r.resolveCandidates fs filename with ⟨r2, result⟩
    cases result with
    | nil => simp [hc]
    | cons a t =>
        cases t with
        | nil => simp [hc]
        | cons b t2 => simp [hc]
  rcases hc : (r.resolveCandidates fs filename).2 with _ | ⟨a, _ | ⟨b, t2⟩⟩ <;>
    rw [hc] at hres <;> rw [hres] <;> simp [hc]

theorem c3_resolve_by_candidates_witness :
    ((FileResolver.resolve
        { import_paths := [(none, "/lib")], cached_paths := [], files := [] }
        [("/lib/a.sol", "contract A {}")]
        (some { path := "m.sol", full_path := "/src/m.sol",
                import_no := none, contents := "" })
        "a.sol").2 =
      Except.ok { path := "a.sol", full_path := "/lib/a.sol",
                  import_no := some 0, contents := "contract A {}" }) := by
  have h := c3_resolve_by_candidates
    { import_paths := [(none, "/lib")], cached_paths := [], files := [] }
    [("/lib/a.sol", "contract A {}")]
    { path := "m.sol", full_path := "/src/m.sol", import_no := none,
      contents := "" }
    "a.sol" (by decide) (by decide)
  exact h.2.2.1 _ (by decide)

theorem c8_lexer_never_errors_witness :
    (Lexer.run [(Except.error LexicalError.invalidToken, 0, 1)]).get? 0 =
      some (Except.ok (0, TokenKind.error, 1)) ∧
    ∀ x ∈ Lexer.run [(Except.error LexicalError.invalidToken, 0, 1)],
      ∃ p, x = Except.ok p :=
  c8_lexer_never_errors [(Except.error LexicalError.invalidToken, 0, 1)] 0
    LexicalError.invalidToken 0 1 rfl


/-! Theorems for the hex-number lexing claim: helper lemmas about the
pattern-length functions, then the corrected statement and the
counterexample to the literal reading. -/

theorem lexGo_nil (n pos : Nat) : lexGo n [] pos = [] := by
  cases n <;> rfl

theorem hexPairs_full_aux (n : Nat) : ∀ ds : List Char, ds.length ≤ n →
    ds.length % 2 = 0 → (∀ c ∈ ds, isHexDigitCh c = true) →
    ∀ flag, hexPairs flag ds = ds.length := by
  induction n with
  | zero =>
      intro ds hlen _ _ flag
      have : ds = [] := List.length_eq_zero.mp (Nat.le_zero.mp hlen)
      subst this
      rfl
  | succ n ih =>
      intro ds hlen h2 h4 flag
      rcases ds with _ | ⟨a, _ | ⟨b, rest⟩⟩
      · rfl
      · simp at h2
      · have ha : a ≠ '_' := by
          intro h
          have := h4 a (by simp)
          rw [h] at this
          exact absurd this (by decide)
        rw [hexPairs.eq_2 flag a b rest (fun _ _ h _ => ha h)]
        have hha := h4 a (by simp)
        have hhb := h4 b (by simp)
        rw [if_pos (by simp [hha, hhb])]
        have hrest : hexPairs true rest = rest.length := by
          refine ih rest ?_ ?_ (fun c hc => h4 c (by simp [hc])) true
          · simp at hlen; omega
          · simp at h2 ⊢; omega
        rw [hrest]
        simp
        omega

theorem hexPairs_full (ds : List Char) (h2 : ds.length % 2 = 0)
    (h4 : ∀ c ∈ ds, isHexDigitCh c = true) (flag : Bool) :
    hexPairs flag ds = ds.length :=
  hexPairs_full_aux ds.length ds le_rfl h2 h4 flag

theorem identifierLen_zero_x (cs : List Char) :
    identifierLen ('0' :: cs) = 0 := by
  simp [identifierLen, isIdStart]

theorem annotLen_zero_x (cs : List Char) : annotLen ('0' :: cs) = 0 := rfl

theorem quotedIdentLen_zero_x (cs : List Char) :
    quotedIdentLen ('0' :: cs) = 0 := rfl

theorem stringLitLen_zero_x (cs : List Char) :
    stringLitLen ('0' :: cs) = 0 := by
  unfold stringLitLen
  rw [if_neg (by simp)]
  exact quotedIdentLen_zero_x cs

theorem hexLitLen_zero_x (cs : List Char) : hexLitLen ('0' :: cs) = 0 := rfl

theorem numberLen_zero_x (cs : List Char) :
    numberLen ('0' :: 'x' :: cs) = 1 := rfl

theorem hexNumberLen_zero_x (cs : List Char) :
    hexNumberLen ('0' :: 'x' :: cs) = 2 + hexPairs false cs := rfl

theorem addressLen_short (cs : List Char) (h : cs.length < 40) :
    addressLen ('0' :: 'x' :: cs) = 0 := by
  rw [addressLen]
  rw [if_neg (by simp; omega)]

theorem addressLen_long (cs : List Char) (h : 40 < cs.length)
    (h4 : ∀ c ∈ cs, isHexDigitCh c = true) :
    addressLen ('0' :: 'x' :: cs) = 42 := by
  rw [addressLen]
  rw [if_pos (by
    simp only [Bool.and_eq_true, decide_eq_true_eq, List.all_eq_true]
    constructor
    · simp; omega
    · intro c hc
      exact h4 c (List.mem_of_mem_take hc))]

theorem foldl_fixed_id (cs : List Char) :
    ∀ (l : List (String × TokenKind)) (acc : Nat × Option TokenKind),
    (∀ st ∈ l, st.1.toList.isPrefixOf cs = false) →
    l.foldl
      (fun acc st =>
        if st.1.toList.isPrefixOf cs && acc.1 < st.1.length
        then (st.1.length, some st.2) else acc) acc = acc := by
  intro l
  induction l with
  | nil => intro acc _; rfl
  | cons st rest ih =>
      intro acc h
      rw [List.foldl_cons]
      rw [if_neg (by rw [h st (by simp)]; simp)]
      exact ih acc (fun s hs => h s (by simp [hs]))

theorem fixedTokens_no_zero :
    ∀ st ∈ fixedTokens, st.1.toList.head? ≠ some '0' ∧ st.1.toList ≠ [] := by
  decide

theorem head_mismatch (s : List Char) (hne : s ≠ []) (h0 : s.head? ≠ some '0')
    (cs : List Char) : s.isPrefixOf ('0' :: cs) = false := by
  rcases s with _ | ⟨c, t⟩
  · exact absurd rfl hne
  · simp only [List.head?_cons, ne_eq, Option.some.injEq] at h0
    simp [List.isPrefixOf, h0]

theorem bestFixed_zero_x (cs : List Char) :
    bestFixed ('0' :: cs) = (0, none) := by
  rw [bestFixed]
  exact foldl_fixed_id ('0' :: cs) fixedTokens (0, none)
    (fun st hst => head_mismatch st.1.toList (fixedTokens_no_zero st hst).2
      (fixedTokens_no_zero st hst).1 cs)

theorem maxMunch_hex (ds : List Char) (h2 : ds.length % 2 = 0)
    (h3 : ds.length ≠ 40) (h4 : ∀ c ∈ ds, isHexDigitCh c = true) :
    maxMunch ('0' :: 'x' :: ds) = (2 + ds.length, some TokenKind.hexNumber) := by
  rw [maxMunch, regexCandidates, identifierLen_zero_x, annotLen_zero_x,
    stringLitLen_zero_x, hexLitLen_zero_x, numberLen_zero_x,
    hexNumberLen_zero_x, bestFixed_zero_x, hexPairs_full ds h2 h4 false]
  rcases Nat.lt_or_ge ds.length 40 with hlt | hge
  · rw [addressLen_short ds hlt]
    simp only [List.foldl_cons, List.foldl_nil]
    norm_num
    intro hc
    exact absurd hc (by omega)
  · have hgt : 40 < ds.length := lt_of_le_of_ne hge (Ne.symm h3)
    rw [addressLen_long ds hgt h4]
    simp only [List.foldl_cons, List.foldl_nil]
    norm_num
    omega

/-- C7: corrected form of the hex-number lexing claim. The `HexNumber`
pattern of token.rs matches digit *pairs* (`0x([0-9a-fA-F]{2}(_?[0-9a-fA-F]{2})*)*`),
so `0x` followed by hex digits lexes as a single hex-number token exactly
when the digit count is even (and not 40, which is an address literal);
with an odd digit count the final digit is left outside the token. -/
theorem c7_hex_number_token (ds : List Char) (h2 : ds.length % 2 = 0)
    (h3 : ds.length ≠ 40) (h4 : ∀ c ∈ ds, isHexDigitCh c = true) :
    lexAll ('0' :: 'x' :: ds) = [(TokenKind.hexNumber, 0, ds.length + 2)] := by
  have hmm := maxMunch_hex ds h2 h3 h4
  rw [lexAll]
  simp only [List.length_cons]
  rw [lexGo]
  rw [if_neg (by simp [isWs])]
  rw [if_neg (by simp)]
  rw [hmm]
  dsimp only
  rw [if_neg (by omega)]
  rw [List.drop_eq_nil_of_le (by simp; omega), lexGo_nil]
  norm_num
  omega

theorem c7_hex_number_token_witness :
    (((['a', 'b'] : List Char).length % 2 = 0 ∧
      (['a', 'b'] : List Char).length ≠ 40 ∧
      ∀ c ∈ (['a', 'b'] : List Char), isHexDigitCh c = true) ∧
     lexAll ['0', 'x', 'a', 'b'] = [(TokenKind.hexNumber, 0, 4)]) :=
  ⟨⟨by decide, by decide, by decide⟩,
   c7_hex_number_token ['a', 'b'] (by decide) (by decide) (by decide)⟩

/-- C7 (counterexample): the input `0x1` — `0x` followed by one hex digit —
is not lexed as a single hex-number token: the pair-matching `HexNumber`
pattern stops after `0x`, and the remaining `1` becomes a separate number
token. This refutes the claim for odd digit counts. -/
theorem c7_odd_digits_counterexample :
    lexAll ['0', 'x', '1'] =
      [(TokenKind.hexNumber, 0, 2), (TokenKind.number, 2, 3)] ∧
    lexAll ['0', 'x', '1'] ≠ [(TokenKind.hexNumber, 0, 3)] := by
  constructor
  · decide
  · decide


/-! Theorems for the inheritance-acyclicity claim: soundness and
completeness of the fuel-bounded `is_base` with respect to the `Reaches`
relation, preservation of acyclicity by `visit_base`, and antisymmetry. -/

theorem basesWF_mem (ctx : Context) (hwf : BasesWF ctx) (d : Nat)
    (b : Base) (hb : b ∈ contractBases ctx d) :
    b.contract_no < ctx.contracts.length := by
  rw [contractBases] at hb
  by_cases hlt : d < ctx.contracts.length
  · have hmem : ctx.contracts.getD d default ∈ ctx.contracts := by
      rw [List.getD_eq_getElem?_getD, List.getElem?_eq_getElem hlt]
      exact List.getElem_mem hlt
    exact hwf _ hmem b hb
  · rw [List.getD_eq_default _ _ (Nat.le_of_not_lt hlt)] at hb
    exact absurd hb (by simp [default])

theorem isBaseFuel_sound (ctx : Context) :
    ∀ (fuel b d : Nat), isBaseFuel ctx fuel b d = true → Reaches ctx d b := by
  intro fuel
  induction fuel with
  | zero => intro b d h; exact absurd h (by simp [isBaseFuel])
  | succ f ih =>
      intro b d h
      rw [isBaseFuel] at h
      by_cases hc :
          (b = d || (contractBases ctx d).any (fun e => e.contract_no = b)) = true
      · rcases Bool.or_eq_true_iff.mp hc with h1 | h2
        · rw [decide_eq_true_eq] at h1
          exact h1 ▸ Relation.ReflTransGen.refl
        · rcases List.any_eq_true.mp h2 with ⟨e, he, hee⟩
          rw [decide_eq_true_eq] at hee
          exact Relation.ReflTransGen.single ⟨e, he, hee⟩
      · rw [if_neg hc] at h
        rcases List.any_eq_true.mp h with ⟨e, he, hee⟩
        have hreach := ih b e.contract_no hee
        exact Relation.ReflTransGen.head ⟨e, he, rfl⟩ hreach

theorem stepPath_suffix (ctx : Context) :
    ∀ (l1 : List Nat) (d x b : Nat) (l2 : List Nat),
    StepPath ctx d (l1 ++ x :: l2) b → StepPath ctx x l2 b := by
  intro l1
  induction l1 with
  | nil => intro d x b l2 h; exact h.2
  | cons p rest ih =>
      intro d x b l2 h
      exact ih p x b l2 h.2

theorem stepPath_to_reaches (ctx : Context) :
    ∀ (l : List Nat) (d b : Nat), StepPath ctx d l b → Reaches ctx d b := by
  intro l
  induction l with
  | nil => intro d b h; exact h ▸ Relation.ReflTransGen.refl
  | cons p rest ih =>
      intro d b h
      exact Relation.ReflTransGen.head h.1 (ih p b h.2)

theorem reaches_to_path (ctx : Context) (d b : Nat) (h : Reaches ctx d b) :
    ∃ l, StepPath ctx d l b := by
  induction h using Relation.ReflTransGen.head_induction_on with
  | refl => exact ⟨[], rfl⟩
  | head hstep _ ihtail =>
      rcases ihtail with ⟨l, hl⟩
      exact ⟨_ :: l, ⟨hstep, hl⟩⟩

theorem stepPath_nodup_aux (ctx : Context) :
    ∀ (n : Nat) (l : List Nat) (d b : Nat), l.length ≤ n →
    StepPath ctx d l b →
    ∃ l', StepPath ctx d l' b ∧ (d :: l').Nodup ∧ l' ⊆ l := by
  intro n
  induction n with
  | zero =>
      intro l d b hlen h
      have : l = [] := List.length_eq_zero.mp (Nat.le_zero.mp hlen)
      subst this
      exact ⟨[], h, by simp, by simp⟩
  | succ n ih =>
      intro l d b hlen h
      by_cases hd : d ∈ l
      · rcases List.mem_iff_append.mp hd with ⟨l1, l2, rfl⟩
        have htail : StepPath ctx d l2 b := stepPath_suffix ctx l1 d d b l2 h
        have hlen2 : l2.length ≤ n := by
          simp [List.length_append] at hlen
          omega
        rcases ih l2 d b hlen2 htail with ⟨l', hp, hn, hs⟩
        exact ⟨l', hp, hn, fun x hx => by simp [hs hx]⟩
      · rcases l with _ | ⟨p, rest⟩
        · exact ⟨[], h, by simp, by simp⟩
        · have hlen2 : rest.length ≤ n := by simp at hlen; omega
          rcases ih rest p b hlen2 h.2 with ⟨l', hp, hn, hs⟩
          refine ⟨p :: l', ⟨h.1, hp⟩, ?_, ?_⟩
          · rw [List.nodup_cons]
            refine ⟨?_, hn⟩
            intro hmem
            rcases List.mem_cons.mp hmem with rfl | hmem2
            · exact hd (by simp)
            · exact hd (by simp [hs hmem2])
          · intro x hx
            rcases List.mem_cons.mp hx with rfl | hx2
            · simp
            · simp [hs hx2]

theorem stepPath_nodes_lt (ctx : Context) (hwf : BasesWF ctx) :
    ∀ (l : List Nat) (d b : Nat), StepPath ctx d l b →
    ∀ x ∈ l, x < ctx.contracts.length := by
  intro l
  induction l with
  | nil => intro d b _ x hx; exact absurd hx (by simp)
  | cons p rest ih =>
      intro d b h x hx
      rcases List.mem_cons.mp hx with rfl | hx2
      · rcases h.1 with ⟨e, he, hee⟩
        exact hee ▸ basesWF_mem ctx hwf d e he
      · exact ih p b h.2 x hx2

theorem isBaseFuel_complete (ctx : Context) :
    ∀ (l : List Nat) (d b fuel : Nat), l.length < fuel →
    StepPath ctx d l b → isBaseFuel ctx fuel b d = true := by
  intro l
  induction l with
  | nil =>
      intro d b fuel hf h
      rcases fuel with _ | f
      · omega
      · have hdb : d = b := h
        rw [isBaseFuel]
        rw [if_pos (by simp [hdb])]
  | cons p rest ih =>
      intro d b fuel hf h
      rcases fuel with _ | f
      · omega
      · rw [isBaseFuel]
        by_cases hc :
            (b = d || (contractBases ctx d).any (fun e => e.contract_no = b)) =
              true
        · rw [if_pos hc]
        · rw [if_neg hc]
          rcases h.1 with ⟨e, he, hee⟩
          refine List.any_eq_true.mpr ⟨e, he, ?_⟩
          rw [hee]
          exact ih p b f (by simp at hf; omega) h.2

theorem is_base_complete (ctx : Context) (hwf : BasesWF ctx) (d b : Nat)
    (h : Reaches ctx d b) : is_base b d ctx = true := by
  rcases reaches_to_path ctx d b h with ⟨l, hl⟩
  rcases stepPath_nodup_aux ctx l.length l d b le_rfl hl with ⟨l', hp, hn, _⟩
  have hlt : ∀ x ∈ l', x < ctx.contracts.length :=
    stepPath_nodes_lt ctx hwf l' d b hp
  have hsub : l' ⊆ List.range ctx.contracts.length :=
    fun x hx => List.mem_range.mpr (hlt x hx)
  have hnd : l'.Nodup := (List.nodup_cons.mp hn).2
  have hlen : l'.length ≤ ctx.contracts.length := by
    have := (List.subperm_of_subset hnd hsub).length_le
    simpa using this
  exact isBaseFuel_complete ctx l' d b (ctx.contracts.length + 1)
    (by omega) hp

theorem reaches_decomp (ctx2 ctx : Context) (cno no : Nat)
    (hE : ∀ d p, StepEdge ctx2 d p ↔ StepEdge ctx d p ∨ (d = cno ∧ p = no)) :
    ∀ x y, Reaches ctx2 x y →
      Reaches ctx x y ∨ (Reaches ctx x cno ∧ Reaches ctx2 no y) := by
  intro x y h
  induction h using Relation.ReflTransGen.head_induction_on with
  | refl => exact Or.inl Relation.ReflTransGen.refl
  | head hstep htail ihtail =>
      rename_i a c
      rcases (hE a c).mp hstep with hold | ⟨rfl, rfl⟩
      · rcases ihtail with hl | ⟨hr1, hr2⟩
        · exact Or.inl (Relation.ReflTransGen.head hold hl)
        · exact Or.inr ⟨Relation.ReflTransGen.head hold hr1, hr2⟩
      · exact Or.inr ⟨Relation.ReflTransGen.refl, htail⟩

theorem acyclic_add (ctx2 ctx : Context) (cno no : Nat)
    (hE : ∀ d p, StepEdge ctx2 d p ↔ StepEdge ctx d p ∨ (d = cno ∧ p = no))
    (hacy : Acyclic ctx) (hguard : ¬ Reaches ctx no cno) (hne : cno ≠ no) :
    Acyclic ctx2 := by
  intro d p hdp hpd
  have hdecomp := reaches_decomp ctx2 ctx cno no hE
  have hfromno : ∀ y, Reaches ctx2 no y → Reaches ctx no y := by
    intro y hy
    rcases hdecomp no y hy with h | ⟨h1, _⟩
    · exact h
    · exact absurd h1 hguard
  have hpd2 : Reaches ctx p d ∨ (Reaches ctx p cno ∧ Reaches ctx no d) := by
    rcases hdecomp p d hpd with h | ⟨h1, h2⟩
    · exact Or.inl h
    · exact Or.inr ⟨h1, hfromno d h2⟩
  rcases (hE d p).mp hdp with hold | ⟨rfl, rfl⟩
  · rcases hpd2 with h | ⟨h1, h2⟩
    · exact hacy d p hold h
    · exact hguard
        (Relation.ReflTransGen.trans h2
          (Relation.ReflTransGen.head hold h1))
  · rcases hpd2 with h | ⟨h1, _⟩
    · exact hguard h
    · exact hguard h1

theorem acyclic_antisymm (ctx : Context) (hacy : Acyclic ctx) (a b : Nat)
    (hne : a ≠ b) :
    ¬(is_base a b ctx = true ∧ is_base b a ctx = true) := by
  rintro ⟨h1, h2⟩
  have hr1 : Reaches ctx b a := isBaseFuel_sound ctx _ a b h1
  have hr2 : Reaches ctx a b := isBaseFuel_sound ctx _ b a h2
  rcases Relation.ReflTransGen.cases_head hr2 with heq | ⟨z, hz, hzb⟩
  · exact hne heq
  · exact hacy a z hz (Relation.ReflTransGen.trans hzb hr1)

theorem stepEdge_congr (ctx1 ctx2 : Context)
    (h : ctx1.contracts = ctx2.contracts) :
    StepEdge ctx1 = StepEdge ctx2 := by
  funext d p
  unfold StepEdge contractBases
  rw [h]

theorem acyclic_congr (ctx1 ctx2 : Context)
    (h : ctx1.contracts = ctx2.contracts) (ha : Acyclic ctx1) :
    Acyclic ctx2 := by
  have hE := stepEdge_congr ctx1 ctx2 h
  unfold Acyclic Reaches at ha ⊢
  rw [← hE]
  exact ha

theorem basesWF_congr (ctx1 ctx2 : Context)
    (h : ctx1.contracts = ctx2.contracts) (hw : BasesWF ctx1) :
    BasesWF ctx2 := by
  unfold BasesWF at hw ⊢
  rw [← h]
  exact hw

theorem visit_base_spec (ctx : Context) (cno : Nat) (b : BaseCand) :
    (visit_base ctx cno b).contracts = ctx.contracts ∨
    ∃ no, b.resolved = some no ∧ no ≠ cno ∧
      is_base cno no ctx = false ∧
      (visit_base ctx cno b).contracts =
        ctx.contracts.set cno
          { ctx.contracts.getD cno default with
            bases := (ctx.contracts.getD cno default).bases ++
              [{ loc := b.loc, contract_no := no, ctor := none }] } := by
  unfold visit_base
  dsimp only
  by_cases h1 : (ctx.contracts.getD cno default).is_library = true
  · rw [if_pos h1]
    exact Or.inl rfl
  · rw [if_neg h1]
    rcases hr : b.resolved with _ | no
    · exact Or.inl rfl
    · dsimp only
      by_cases h2 : no = cno
      · rw [if_pos h2]
        exact Or.inl rfl
      · rw [if_neg h2]
        by_cases h3 : (ctx.contracts.getD cno default).bases.any
            (fun e => e.contract_no = no) = true
        · rw [if_pos h3]
          exact Or.inl rfl
        · rw [if_neg h3]
          by_cases h4 : is_base cno no ctx = true
          · rw [if_pos h4]
            exact Or.inl rfl
          · rw [if_neg h4]
            by_cases h5 : ((ctx.contracts.getD cno default).is_interface &&
                !(ctx.contracts.getD no default).is_interface) = true
            · rw [if_pos h5]
              exact Or.inl rfl
            · rw [if_neg h5]
              by_cases h6 : (ctx.contracts.getD no default).is_library = true
              · rw [if_pos h6]
                exact Or.inl rfl
              · rw [if_neg h6]
                exact Or.inr ⟨no, rfl, h2,
                  by revert h4; cases is_base cno no ctx <;> simp, rfl⟩

theorem stepEdge_set (ctx2 ctx : Context) (cno no : Nat) (nb : Base)
    (hnb : nb.contract_no = no) (hlt : cno < ctx.contracts.length)
    (hc2 : ctx2.contracts = ctx.contracts.set cno
      { ctx.contracts.getD cno default with
        bases := (ctx.contracts.getD cno default).bases ++ [nb] }) :
    ∀ d p, StepEdge ctx2 d p ↔ StepEdge ctx d p ∨ (d = cno ∧ p = no) := by
  intro d p
  unfold StepEdge contractBases
  rw [hc2]
  by_cases hd : d = cno
  · subst hd
    rw [List.getD_eq_getElem?_getD, List.getElem?_set_eq hlt]
    simp only [Option.getD_some]
    constructor
    · rintro ⟨e, he, hee⟩
      rcases List.mem_append.mp he with h | h
      · exact Or.inl ⟨e, h, hee⟩
      · rcases List.mem_singleton.mp h with rfl
        exact Or.inr ⟨trivial, hee ▸ hnb⟩
    · rintro (⟨e, he, hee⟩ | ⟨-, rfl⟩)
      · exact ⟨e, List.mem_append.mpr (Or.inl he), hee⟩
      · exact ⟨nb, List.mem_append.mpr (Or.inr (by simp)), hnb⟩
  · rw [List.getD_eq_getElem?_getD, List.getElem?_set_ne (fun h => hd h.symm),
      ← List.getD_eq_getElem?_getD]
    simp [hd]

theorem visit_base_inv (ctx : Context) (cno : Nat) (b : BaseCand)
    (hacy : Acyclic ctx) (hwf : BasesWF ctx)
    (hrange : ∀ no, b.resolved = some no → no < ctx.contracts.length) :
    Acyclic (visit_base ctx cno b) ∧ BasesWF (visit_base ctx cno b) ∧
    (visit_base ctx cno b).contracts.length = ctx.contracts.length := by
  rcases visit_base_spec ctx cno b with heq | ⟨no, hres, hne, hnb, heq⟩
  · exact ⟨acyclic_congr ctx _ heq.symm hacy,
      basesWF_congr ctx _ heq.symm hwf, by rw [heq]⟩
  · by_cases hlt : cno < ctx.contracts.length
    · have hnolt : no < ctx.contracts.length := hrange no hres
      have hE := stepEdge_set (visit_base ctx cno b) ctx cno no
        { loc := b.loc, contract_no := no, ctor := none } rfl hlt heq
      have hguard : ¬ Reaches ctx no cno := by
        intro hreach
        rw [is_base_complete ctx hwf no cno hreach] at hnb
        exact Bool.noConfusion hnb
      refine ⟨acyclic_add _ ctx cno no hE hacy hguard (Ne.symm hne), ?_, ?_⟩
      · intro c hc e he
        rw [heq, List.length_set]
        rw [heq] at hc
        rcases List.mem_or_eq_of_mem_set hc with hcold | rfl
        · exact hwf c hcold e he
        · rcases List.mem_append.mp he with h | h
          · have hmem : ctx.contracts.getD cno default ∈ ctx.contracts := by
              rw [List.getD_eq_getElem?_getD, List.getElem?_eq_getElem hlt]
              exact List.getElem_mem hlt
            exact hwf _ hmem e h
          · rcases List.mem_singleton.mp h with rfl
            exact hnolt
      · rw [heq, List.length_set]
    · have heq2 : (visit_base ctx cno b).contracts = ctx.contracts := by
        rw [heq, List.set_eq_of_length_le (Nat.le_of_not_lt hlt)]
      exact ⟨acyclic_congr ctx _ heq2.symm hacy,
        basesWF_congr ctx _ heq2.symm hwf, by rw [heq2]⟩

theorem resolveBases_inv :
    ∀ (cands : List (Nat × BaseCand)) (ctx : Context),
    Acyclic ctx → BasesWF ctx →
    (∀ p ∈ cands, ∀ no, p.2.resolved = some no →
      no < ctx.contracts.length) →
    Acyclic (resolveBases ctx cands) ∧ BasesWF (resolveBases ctx cands) := by
  intro cands
  induction cands with
  | nil => intro ctx ha hw _; exact ⟨ha, hw⟩
  | cons p rest ih =>
      intro ctx ha hw hr
      rcases p with ⟨cno, bc⟩
      rw [resolveBases]
      have step := visit_base_inv ctx cno bc ha hw
        (fun no h => hr (cno, bc) (by simp) no h)
      refine ih _ step.1 step.2.1 ?_
      intro q hq no h
      rw [step.2.2]
      exact hr q (by simp [hq]) no h

theorem acyclic_of_empty (ctx : Context)
    (hempty : ∀ c ∈ ctx.contracts, c.bases = []) :
    Acyclic ctx ∧ BasesWF ctx := by
  have hbases : ∀ d, contractBases ctx d = [] := by
    intro d
    rw [contractBases]
    by_cases hlt : d < ctx.contracts.length
    · have hmem : ctx.contracts.getD d default ∈ ctx.contracts := by
        rw [List.getD_eq_getElem?_getD, List.getElem?_eq_getElem hlt]
        exact List.getElem_mem hlt
      exact hempty _ hmem
    · rw [List.getD_eq_default _ _ (Nat.le_of_not_lt hlt)]
      simp [default]
  constructor
  · rintro d p ⟨e, he, -⟩ _
    rw [hbases d] at he
    exact absurd he (by simp)
  · intro c hc e he
    rw [hempty c hc] at he
    exact absurd he (by simp)

set_option maxHeartbeats 1000000 in
/-- C1: the contract-base resolver maintains an acyclic inheritance graph.
Starting from a context whose contracts have no recorded bases (the state
in which `BaseContractResolver` runs) and candidate base edges whose
resolved contract indices are in range, after the whole pass no two
distinct contracts are each a base of the other: `is_base(a, b)` and
`is_base(b, a)` cannot both hold. This is guaranteed unconditionally by the
cycle check of `visit_base` — the final no-error hypothesis of the claim is
not even needed — because a candidate edge `current → no` is rejected
whenever `is_base(current, no)` already holds. `is_base` is modelled with
`contracts.length + 1` units of fuel, shown sufficient on the well-formed
acyclic contexts the resolver maintains. -/
theorem c1_inheritance_acyclic (ctx : Context)
    (cands : List (Nat × BaseCand))
    (hempty : ∀ c ∈ ctx.contracts, c.bases = [])
    (hrange : ∀ p ∈ cands, ∀ no, p.2.resolved = some no →
      no < ctx.contracts.length)
    (_hnoerr : (resolveBases ctx cands).diagnostics.any_errors = false) :
    ∀ a b, a ≠ b →
      ¬(is_base a b (resolveBases ctx cands) = true ∧
        is_base b a (resolveBases ctx cands) = true) := by
  have h0 := acyclic_of_empty ctx hempty
  have hinv := resolveBases_inv cands ctx h0.1 h0.2 hrange
  exact fun a b hne => acyclic_antisymm _ hinv.1 a b hne

theorem c1_inheritance_acyclic_witness :
    ((∀ c ∈ c1Ctx.contracts, c.bases = []) ∧
     (resolveBases c1Ctx c1Cands).diagnostics.any_errors = false) ∧
    ¬(is_base 0 1 (resolveBases c1Ctx c1Cands) = true ∧
      is_base 1 0 (resolveBases c1Ctx c1Cands) = true) :=
  ⟨⟨by decide, by decide⟩,
   c1_inheritance_acyclic c1Ctx c1Cands (by decide)
     (fun p hp no h => by
        simp only [c1Cands, List.mem_singleton] at hp
        subst hp
        simp only [c1Cands] at h
        simp at h
        subst h
        decide)
     (by decide) 0 1 (by decide)⟩

end Hmt
